import Mathlib

/-!
# Account flows of react-firebase-devops-pipeline

A shallow embedding of the authentication core of the repository
(`src/pages/Register.jsx`, `src/pages/Login.jsx`, `src/pages/Home.jsx`,
`src/lib/bcrypt.js`) together with the properties stated about it.

Conventions of the embedding:

* a JavaScript string is the list of its UTF-16 code units (`JSString`), so
  `.length`, `trim`, `===` and regular expressions without the `u` flag act
  on code units exactly as the language defines them;
* every `await` on an external collaborator (Firestore, the hasher) is a call
  of a function of the environment that threads the collaborator's state;
  the calls made are recorded in order, so "no call was made" is a statement
  about the recorded list;
* a thrown JavaScript value is a `JSError`; code that may throw returns
  `Except JSError _`.
-/

namespace AuthCore

/-! ## JavaScript strings -/

/-- A JavaScript string value: its sequence of UTF-16 code units. -/
abbrev JSString := List Nat

/-- UTF-16 code units of one Unicode scalar value. -/
def utf16Char (c : Char) : List Nat :=
  if c.toNat < 65536 then [c.toNat]
  else [55296 + (c.toNat - 65536) / 1024, 56320 + (c.toNat - 65536) % 1024]

/-- The JavaScript string written by a source literal. -/
def utf16 (s : String) : JSString :=
  s.toList.flatMap utf16Char

/-- Code units that are `WhiteSpace` or `LineTerminator` in ECMAScript: the
set stripped by `String.prototype.trim` and matched by `\s`. -/
def isWhiteSpace (u : Nat) : Bool :=
  u == 9 || u == 10 || u == 11 || u == 12 || u == 13 || u == 32 || u == 160 ||
  u == 5760 || (8192 ≤ u && u ≤ 8202) || u == 8232 || u == 8233 || u == 8239 ||
  u == 8287 || u == 12288 || u == 65279

/-- Code units that are `LineTerminator`: the ones `.` does not match. -/
def isLineTerminator (u : Nat) : Bool :=
  u == 10 || u == 13 || u == 8232 || u == 8233

/-- The builtin `String.prototype.trim`. -/
def trim (s : JSString) : JSString :=
  (s.dropWhile isWhiteSpace).rdropWhile isWhiteSpace

/-- ASCII lower-casing of one code unit (`A`..`Z` to `a`..`z`). -/
def asciiLowerUnit (u : Nat) : Nat :=
  if 65 ≤ u ∧ u ≤ 90 then u + 32 else u

/-- What `String.prototype.toLowerCase` does on a string of Basic Latin code
units.  The builtin itself is a parameter of the flows (`toLowerCase`); this
function is used where a concrete string has to be evaluated. -/
def asciiToLowerCase (s : JSString) : JSString :=
  s.map asciiLowerUnit

/-- A string made of Basic Latin code units only. -/
def IsAscii (s : JSString) : Prop :=
  ∀ u ∈ s, u < 128

instance IsAscii.decidable (s : JSString) : Decidable (IsAscii s) :=
  inferInstanceAs (Decidable (∀ u ∈ s, u < 128))

/-- The builtin `Array.prototype.join`. -/
def join (sep : JSString) (parts : List JSString) : JSString :=
  sep.intercalate parts

/-! ## Regular expressions

The matcher follows the continuation-passing semantics of the ECMAScript
specification (a matcher takes a state and a continuation and returns a final
state or failure).  Quantifiers are restricted to single-code-unit atoms, which
is all the patterns of this repository use. -/

/-- The position of a match in progress: how many code units precede it and
which ones remain. -/
structure MatchState where
  pos : Nat
  rest : JSString
deriving DecidableEq, Repr

/-- Patterns without flags and without capture groups. -/
inductive Regex where
  /-- The assertion `^`. -/
  | bol
  /-- The assertion `$`. -/
  | eol
  /-- An atom matching one code unit: a literal, a class or `.`. -/
  | unit (p : Nat → Bool)
  /-- Concatenation. -/
  | seq (r₁ r₂ : Regex)
  /-- The assertion `(?=r)`. -/
  | lookahead (r : Regex)
  /-- A greedy quantifier `{lo,hi}` on a one-code-unit atom (`hi = none` is
  unbounded, so `+` is `rep p 1 none`). -/
  | rep (p : Nat → Bool) (lo : Nat) (hi : Option Nat)

/-- Whether the upper bound of a quantifier has been used up. -/
def Regex.exhausted : Option Nat → Bool
  | some 0 => true
  | _ => false

/-- `RepeatMatcher` for a greedy quantifier on a one-code-unit atom: stop when
the upper bound is used up; otherwise take one more code unit when possible,
and fall back to the continuation when that fails and the lower bound is met. -/
def Regex.repeatMatcher (p : Nat → Bool) :
    JSString → Nat → Option Nat → Nat → (MatchState → Option MatchState) → Option MatchState
  | [], lo, hi, pos, c =>
    if Regex.exhausted hi then c ⟨pos, []⟩
    else if lo = 0 then c ⟨pos, []⟩ else none
  | u :: t, lo, hi, pos, c =>
    if Regex.exhausted hi then c ⟨pos, u :: t⟩
    else if p u then
      match Regex.repeatMatcher p t (lo - 1) (hi.map (· - 1)) (pos + 1) c with
      | some y => some y
      | none => if lo = 0 then c ⟨pos, u :: t⟩ else none
    else if lo = 0 then c ⟨pos, u :: t⟩ else none

/-- The matcher of a pattern. -/
def Regex.matcher : Regex → MatchState → (MatchState → Option MatchState) → Option MatchState
  | .bol, x, c => if x.pos = 0 then c x else none
  | .eol, x, c => if x.rest = [] then c x else none
  | .unit p, x, c =>
    match x.rest with
    | [] => none
    | u :: t => if p u then c ⟨x.pos + 1, t⟩ else none
  | .seq r₁ r₂, x, c => r₁.matcher x (fun y => r₂.matcher y c)
  | .lookahead r, x, c =>
    match r.matcher x some with
    | some _ => c x
    | none => none
  | .rep p lo hi, x, c => Regex.repeatMatcher p x.rest lo hi x.pos c

/-- A match attempt anchored at the given state (what a sticky
`RegExpBuiltinExec` does): the state at the end of the match. -/
def Regex.matchAt (r : Regex) (x : MatchState) : Option MatchState :=
  r.matcher x some

/-- The search loop of `RegExpBuiltinExec` for a pattern without the `g` and
`y` flags: try each start index from the current one on. -/
def Regex.search (r : Regex) : Nat → JSString → Option MatchState
  | pos, [] => r.matchAt ⟨pos, []⟩
  | pos, u :: t =>
    match r.matchAt ⟨pos, u :: t⟩ with
    | some y => some y
    | none => Regex.search r (pos + 1) t

/-- The builtin `RegExp.prototype.test`. -/
def Regex.test (r : Regex) (s : JSString) : Bool :=
  (Regex.search r 0 s).isSome

/-- The atom `[^\s@]`. -/
def notSpaceOrAt (u : Nat) : Bool :=
  !(isWhiteSpace u || u == 64)

/-- The atom `.` (no `s` flag). -/
def dot (u : Nat) : Bool :=
  !isLineTerminator u

/-- Register.jsx line 7:
`const emailRegex = /^(?=.{3,255}$)[^\s@]+@[^\s@]+\.[^\s@]+$/;` -/
def emailRegex : Regex :=
  .seq .bol
    (.seq (.lookahead (.seq (.rep dot 3 (some 255)) .eol))
      (.seq (.rep notSpaceOrAt 1 none)
        (.seq (.unit (· == 64))
          (.seq (.rep notSpaceOrAt 1 none)
            (.seq (.unit (· == 46))
              (.seq (.rep notSpaceOrAt 1 none) .eol))))))

/-- The separator `/\s+/` of Register.jsx line 28. -/
def whiteSpaceRun : Regex :=
  .rep isWhiteSpace 1 none

/-- The loop of `RegExp.prototype[Symbol.split]` (no limit, no capture groups).
`piece` is the text between the end of the last separator (index `p`) and the
current index `q`; `x` is the state at `q`. -/
def Regex.splitLoop (r : Regex) : Nat → JSString → MatchState → List JSString
  | 0, piece, x => [piece ++ x.rest]
  | fuel + 1, piece, x =>
    match x.rest with
    | [] => [piece]
    | u :: t =>
      match r.matchAt x with
      | none => Regex.splitLoop r fuel (piece ++ [u]) ⟨x.pos + 1, t⟩
      | some y =>
        if y.pos = x.pos - piece.length then
          Regex.splitLoop r fuel (piece ++ [u]) ⟨x.pos + 1, t⟩
        else piece :: Regex.splitLoop r fuel [] y

/-- The builtin `String.prototype.split` with a regular-expression separator.
Every iteration of the loop either advances the index or moves the piece start
up to it, so twice the length bounds the number of iterations. -/
def split (r : Regex) (s : JSString) : List JSString :=
  match s with
  | [] => if (r.matchAt ⟨0, []⟩).isSome then [] else [[]]
  | _ :: _ => Regex.splitLoop r (2 * s.length + 1) [] ⟨0, s⟩

/-- The expression `x || ""` for `x` an array element that is a string or
`undefined`. -/
def orEmpty : Option JSString → JSString
  | some s => s
  | none => []

/-! ## Thrown values -/

/-- A thrown value, seen through the only property the flows read: `message`
(`none` when the property is missing). -/
structure JSError where
  message : Option String
deriving DecidableEq, Repr

/-- The expression `e.message || fallback`. -/
def JSError.messageOr (e : JSError) (fallback : String) : String :=
  match e.message with
  | some m => if m = "" then fallback else m
  | none => fallback

/-- The expression `new Error(msg)`. -/
def newError (msg : String) : JSError :=
  ⟨some msg⟩

/-! ## Credential hasher -/

/-- A hash token: "a self-describing token encoding algorithm, cost, salt, and
digest". -/
structure HashToken where
  algorithm : String
  cost : Nat
  salt : List Nat
  digest : List Nat
deriving DecidableEq, Repr

/-- Builtins and libraries that the flows call and that are not code of the
repository.  `toLowerCase` is `String.prototype.toLowerCase`; `derive` is the
cost-parameterised one-way derivation inside the hashing library, from cost,
salt and plaintext to digest. -/
structure Runtime where
  toLowerCase : JSString → JSString
  derive : Nat → List Nat → JSString → List Nat

/-- Modelled from the spec: the hashing library `bcryptjs`, which is not under
`src/`.  `genSalt(rounds)`: "generates a fresh random salt"; the random draw is
the argument `draw`. -/
def bcrypt.genSalt (rounds : Nat) (draw : List Nat) : Nat × List Nat :=
  (rounds, draw)

/-- Modelled from the spec: the hashing library `bcryptjs`, which is not under
`src/`.  `hash(plaintext, salt)`: "derives a computationally-expensive one-way
hash ..., returns a self-describing token encoding algorithm, cost, salt, and
digest". -/
def bcrypt.hash (rt : Runtime) (plaintext : JSString) (salt : Nat × List Nat) : HashToken :=
  { algorithm := "bcrypt", cost := salt.1, salt := salt.2,
    digest := rt.derive salt.1 salt.2 plaintext }

/-- Modelled from the spec: the hashing library `bcryptjs`, which is not under
`src/`.  `compare(plaintext, token)`: "recomputes the hash using the parameters
embedded in hashToken and performs a constant-time comparison against the
embedded digest.  Returns true only on exact match." -/
def bcrypt.compare (rt : Runtime) (plaintext : JSString) (token : HashToken) : Bool :=
  rt.derive token.cost token.salt plaintext == token.digest

/-- The function of bcrypt.js lines 5-8:
`const salt = await bcrypt.genSalt(10); return await bcrypt.hash(password, salt);`
The random salt drawn by `genSalt` is the argument `draw`. -/
def hashPassword (rt : Runtime) (draw : List Nat) (password : JSString) : HashToken :=
  let salt := bcrypt.genSalt 10 draw
  bcrypt.hash rt password salt

/-- The function of bcrypt.js lines 10-12: `return await bcrypt.compare(password, hash);` -/
def verifyPassword (rt : Runtime) (password : JSString) (hash : HashToken) : Bool :=
  bcrypt.compare rt password hash

/-! ## The document store -/

/-- The value of a `createdAt` field: the `serverTimestamp()` sentinel in a
write, a time assigned by the server in a stored document. -/
inductive FieldTime where
  | serverTimestamp
  | time (seconds : Nat)
deriving DecidableEq, Repr

/-- The fields of a document of the `users` collection. -/
structure UserData where
  firstName : JSString
  lastName : JSString
  email : JSString
  emailLower : JSString
  passwordHash : HashToken
  createdAt : FieldTime
deriving DecidableEq, Repr

/-- One document of a query result: its id and its fields. -/
structure QueryDocumentSnapshot where
  id : JSString
  data : UserData
deriving DecidableEq, Repr

/-- The two Firestore operations the flows await, over a store state `σ`.
`getDocs key` is
`getDocs(query(collection(db, "users"), where("emailLower", "==", key)))` and
`addDoc u` is `addDoc(collection(db, "users"), u)`; each returns the result of
the promise (the value, or the thrown error) and the state of the store
afterwards. -/
structure Firestore (σ : Type) where
  getDocs : JSString → σ → Except JSError (List QueryDocumentSnapshot) × σ
  addDoc : UserData → σ → Except JSError JSString × σ

/-- An awaited call to an external collaborator. -/
inductive Call where
  | getDocs (emailLower : JSString)
  | addDoc (user : UserData)
  | hashPassword (password : JSString)
  | verifyPassword (password : JSString) (hash : HashToken)
deriving DecidableEq, Repr

/-- Whether the call is an insert into the `users` collection. -/
def Call.isInsert : Call → Bool
  | .addDoc _ => true
  | _ => false

/-! ## Client-local storage and navigation -/

/-- The state of `localStorage`: the value of each key, if any. -/
abbrev Storage := String → Option JSString

/-- The method `localStorage.getItem`. -/
def Storage.getItem (ls : Storage) (key : String) : Option JSString :=
  ls key

/-- The method `localStorage.setItem` (the storage is taken to have room: the
quota error is not modelled). -/
def Storage.setItem (ls : Storage) (key : String) (value : JSString) : Storage :=
  fun k => if k = key then some value else ls k

/-- The method `localStorage.removeItem`. -/
def Storage.removeItem (ls : Storage) (key : String) : Storage :=
  fun k => if k = key then none else ls k

/-- A call of the router's `nav`, possibly deferred by `setTimeout`. -/
structure Navigation where
  path : String
  replace : Bool
  delayMs : Nat
deriving DecidableEq, Repr

/-- Everything outside the component a handler can touch: the document store,
`localStorage`, and the records of awaited calls and of navigations (oldest
first). -/
structure World (σ : Type) where
  db : σ
  localStorage : Storage
  calls : List Call
  navigations : List Navigation

/-! ## JSON

`JSON.parse` follows the JSON grammar (ECMA-404) by recursive descent.  The
recursion into nested values is bounded by a fuel that `JSON.parse` sets to
more than the length of the text, which no nesting can exceed. -/

/-- A number written in a JSON text, kept exactly: `(-1)^neg * mant * 10^exp10`. -/
structure JSNumber where
  neg : Bool
  mant : Nat
  exp10 : Int
deriving DecidableEq, Repr

/-- Whether the double nearest to the number is `+0` or `-0`: the number is
zero, or at most half the smallest subnormal `2^-1074`. -/
def JSNumber.isZero (n : JSNumber) : Bool :=
  n.mant == 0 || (decide (n.exp10 < 0) && decide (n.mant * 2 ^ 1075 ≤ 10 ^ (-n.exp10).toNat))

/-- The values `JSON.parse` can return, and `undefined`.  The properties of an
object are listed in the order of the text. -/
inductive JSValue where
  | undefined
  | null
  | bool (b : Bool)
  | number (n : JSNumber)
  | string (s : JSString)
  | array (items : List JSValue)
  | object (props : List (JSString × JSValue))

/-- The abstract operation `ToBoolean`. -/
def JSValue.toBoolean : JSValue → Bool
  | .undefined => false
  | .null => false
  | .bool b => b
  | .number n => !n.isZero
  | .string s => !s.isEmpty
  | .array _ => true
  | .object _ => true

/-- JSON white space: tab, line feed, carriage return, space. -/
def JSON.isWs (u : Nat) : Bool :=
  u == 9 || u == 10 || u == 13 || u == 32

/-- Skip JSON white space. -/
def JSON.skipWs (s : JSString) : JSString :=
  s.dropWhile JSON.isWs

/-- The digits `0`..`9`. -/
def JSON.isDigit (u : Nat) : Bool :=
  decide (48 ≤ u) && decide (u ≤ 57)

/-- The value of a hexadecimal digit. -/
def JSON.hexVal (u : Nat) : Option Nat :=
  if 48 ≤ u ∧ u ≤ 57 then some (u - 48)
  else if 97 ≤ u ∧ u ≤ 102 then some (u - 87)
  else if 65 ≤ u ∧ u ≤ 70 then some (u - 55)
  else none

/-- The code unit written `\uXXXX`. -/
def JSON.hex4 (a b c d : Nat) : Option Nat :=
  match JSON.hexVal a, JSON.hexVal b, JSON.hexVal c, JSON.hexVal d with
  | some x, some y, some z, some w => some (((x * 16 + y) * 16 + z) * 16 + w)
  | _, _, _, _ => none

/-- The code unit denoted by a two-character escape. -/
def JSON.simpleEscape (u : Nat) : Option Nat :=
  if u = 34 then some 34
  else if u = 92 then some 92
  else if u = 47 then some 47
  else if u = 98 then some 8
  else if u = 102 then some 12
  else if u = 110 then some 10
  else if u = 114 then some 13
  else if u = 116 then some 9
  else none

/-- Put a code unit in front of the string of a partial result. -/
def JSON.consUnit (v : Nat) : Option (JSString × JSString) → Option (JSString × JSString)
  | some (str, rest) => some (v :: str, rest)
  | none => none

/-- The characters of a JSON string after its opening quote, up to and
including the closing quote: the string denoted and the text that follows. -/
def JSON.stringChars : JSString → Option (JSString × JSString)
  | [] => none
  | u :: rest =>
    if u = 34 then some ([], rest)
    else if u = 92 then
      match rest with
      | [] => none
      | e :: rest₁ =>
        if e = 117 then
          match rest₁ with
          | a :: b :: c :: d :: rest₂ =>
            match JSON.hex4 a b c d with
            | some v => JSON.consUnit v (JSON.stringChars rest₂)
            | none => none
          | _ => none
        else
          match JSON.simpleEscape e with
          | some v => JSON.consUnit v (JSON.stringChars rest₁)
          | none => none
    else if u < 32 then none
    else JSON.consUnit u (JSON.stringChars rest)

/-- The number written by a list of digits. -/
def JSON.digitsVal (ds : JSString) : Nat :=
  ds.foldl (fun acc d => acc * 10 + (d - 48)) 0

/-- The exponent part of a number, if the text goes on with one: its value and
the text that follows; `none` when an exponent is begun and has no digit. -/
def JSON.exponent (s : JSString) : Option (Int × JSString) :=
  match s with
  | [] => some (0, [])
  | u :: t =>
    if u = 101 ∨ u = 69 then
      let neg := t.head? = some 45
      let t₁ := if t.head? = some 45 ∨ t.head? = some 43 then t.tail else t
      let ds := t₁.takeWhile JSON.isDigit
      if ds = [] then none
      else some (if neg then -(JSON.digitsVal ds : Int) else (JSON.digitsVal ds : Int),
                 t₁.dropWhile JSON.isDigit)
    else some (0, u :: t)

/-- A JSON number at the head of the text: `-? (0 | [1-9][0-9]*) (. [0-9]+)?
([eE] [+-]? [0-9]+)?`.  A digit cannot follow a leading `0`, so an integer
part with a leading zero and more digits fails outright. -/
def JSON.numberLit (s : JSString) : Option (JSNumber × JSString) :=
  let neg := s.head? = some 45
  let s₁ := if neg then s.tail else s
  let intDs := s₁.takeWhile JSON.isDigit
  let s₂ := s₁.dropWhile JSON.isDigit
  if intDs = [] ∨ (1 < intDs.length ∧ intDs.head? = some 48) then none
  else
    let fracDs := if s₂.head? = some 46 then s₂.tail.takeWhile JSON.isDigit else []
    let s₃ := if s₂.head? = some 46 then s₂.tail.dropWhile JSON.isDigit else s₂
    if s₂.head? = some 46 ∧ fracDs = [] then none
    else
      match JSON.exponent s₃ with
      | none => none
      | some (e, rest) =>
        some ({ neg := neg, mant := JSON.digitsVal (intDs ++ fracDs),
                exp10 := e - (fracDs.length : Int) }, rest)

/-- Strip a keyword from the head of the text. -/
def JSON.keyword (kw : JSString) (s : JSString) : Option JSString :=
  if s.take kw.length = kw then some (s.drop kw.length) else none

/-- The elements of an array after the first white space inside `[`, given the
parser of one value: the elements and the text after `]`. -/
def JSON.elements (value : JSString → Option (JSValue × JSString)) :
    Nat → JSString → Option (List JSValue × JSString)
  | 0, _ => none
  | n + 1, s =>
    match value s with
    | none => none
    | some (v, rest) =>
      match JSON.skipWs rest with
      | [] => none
      | u :: t =>
        if u = 44 then
          match JSON.elements value n (JSON.skipWs t) with
          | some (vs, r) => some (v :: vs, r)
          | none => none
        else if u = 93 then some ([v], t)
        else none

/-- The members of an object after the first white space inside `{`, given the
parser of one value: the members and the text after `}`. -/
def JSON.members (value : JSString → Option (JSValue × JSString)) :
    Nat → JSString → Option (List (JSString × JSValue) × JSString)
  | 0, _ => none
  | n + 1, s =>
    match s with
    | [] => none
    | q :: afterQuote =>
      if q = 34 then
        match JSON.stringChars afterQuote with
        | none => none
        | some (key, rest) =>
          match JSON.skipWs rest with
          | [] => none
          | colon :: rest₁ =>
            if colon = 58 then
              match value (JSON.skipWs rest₁) with
              | none => none
              | some (v, rest₂) =>
                match JSON.skipWs rest₂ with
                | [] => none
                | u :: t =>
                  if u = 44 then
                    match JSON.members value n (JSON.skipWs t) with
                    | some (kvs, r) => some ((key, v) :: kvs, r)
                    | none => none
                  else if u = 125 then some ([(key, v)], t)
                  else none
            else none
      else none

/-- One JSON value at the head of the text (no leading white space): the value
and the text that follows. -/
def JSON.value : Nat → JSString → Option (JSValue × JSString)
  | 0, _ => none
  | fuel + 1, s =>
    match s with
    | [] => none
    | u :: t =>
      if u = 123 then
        match JSON.skipWs t with
        | [] => none
        | v :: t₁ =>
          if v = 125 then some (.object [], t₁)
          else
            match JSON.members (JSON.value fuel) s.length (v :: t₁) with
            | some (kvs, r) => some (.object kvs, r)
            | none => none
      else if u = 91 then
        match JSON.skipWs t with
        | [] => none
        | v :: t₁ =>
          if v = 93 then some (.array [], t₁)
          else
            match JSON.elements (JSON.value fuel) s.length (v :: t₁) with
            | some (vs, r) => some (.array vs, r)
            | none => none
      else if u = 34 then
        match JSON.stringChars t with
        | some (str, r) => some (.string str, r)
        | none => none
      else if u = 45 ∨ JSON.isDigit u = true then
        match JSON.numberLit s with
        | some (n, r) => some (.number n, r)
        | none => none
      else
        match JSON.keyword (utf16 "null") s, JSON.keyword (utf16 "true") s,
              JSON.keyword (utf16 "false") s with
        | some r, _, _ => some (.null, r)
        | none, some r, _ => some (.bool true, r)
        | none, none, some r => some (.bool false, r)
        | none, none, none => none

/-- The `SyntaxError` thrown by `JSON.parse`; its message text is chosen by the
engine, a fixed text stands for it. -/
def JSON.syntaxError : JSError :=
  ⟨some "SyntaxError: text is not valid JSON"⟩

/-- The builtin `JSON.parse` (no reviver): the value of a text that is one
JSON value surrounded by white space, and a thrown `SyntaxError` otherwise. -/
def JSON.parse (text : JSString) : Except JSError JSValue :=
  match JSON.value (text.length + 1) (JSON.skipWs text) with
  | some (v, rest) => if JSON.skipWs rest = [] then .ok v else .error JSON.syntaxError
  | none => .error JSON.syntaxError

/-- A lower-case hexadecimal digit. -/
def JSON.hexDigit (n : Nat) : Nat :=
  if n < 10 then 48 + n else 87 + n

/-- The escape `\uXXXX` of a code unit, in lower-case hexadecimal. -/
def JSON.unicodeEscape (u : Nat) : JSString :=
  [92, 117, JSON.hexDigit (u / 4096 % 16), JSON.hexDigit (u / 256 % 16),
   JSON.hexDigit (u / 16 % 16), JSON.hexDigit (u % 16)]

/-- How `QuoteJSONString` writes a code unit that is not part of a surrogate
pair. -/
def JSON.quoteUnit (u : Nat) : JSString :=
  if u = 8 then [92, 98]
  else if u = 9 then [92, 116]
  else if u = 10 then [92, 110]
  else if u = 12 then [92, 102]
  else if u = 13 then [92, 114]
  else if u = 34 then [92, 34]
  else if u = 92 then [92, 92]
  else if u < 32 ∨ (55296 ≤ u ∧ u ≤ 57343) then JSON.unicodeEscape u
  else [u]

/-- The body of `QuoteJSONString`: a leading surrogate followed by a trailing
one is copied as a pair, every other code unit goes through `quoteUnit`. -/
def JSON.quoteChars : JSString → JSString
  | [] => []
  | [u] => JSON.quoteUnit u
  | u :: l :: t =>
    if (55296 ≤ u ∧ u ≤ 56319) ∧ (56320 ≤ l ∧ l ≤ 57343) then u :: l :: JSON.quoteChars t
    else JSON.quoteUnit u ++ JSON.quoteChars (l :: t)

/-- The abstract operation `QuoteJSONString`. -/
def JSON.quote (s : JSString) : JSString :=
  [34] ++ JSON.quoteChars s ++ [34]

/-- The text of the properties of an object whose values are strings. -/
def JSON.stringifyProps : List (String × JSString) → List JSString
  | [] => []
  | (k, v) :: ps => (JSON.quote (utf16 k) ++ [58] ++ JSON.quote v) :: JSON.stringifyProps ps

/-- The builtin `JSON.stringify` on an object literal whose property values are
all strings (no indentation, no replacer). -/
def JSON.stringifyRecord (props : List (String × JSString)) : JSString :=
  [123] ++ join [44] (JSON.stringifyProps props) ++ [125]

/-! ## Registration flow (`src/pages/Register.jsx`) -/

/-- The `useState` cells of the `Register` component. -/
structure Register.State where
  fullName : JSString
  email : JSString
  pw : JSString
  confirm : JSString
  loading : Bool
  err : String
  ok : String
deriving DecidableEq, Repr

/-- Register.jsx lines 34-49, the body of the `try`: the thrown error, if any,
and the world afterwards.  `draw` is the random salt the hasher draws. -/
def Register.tryBlock {σ : Type} (rt : Runtime) (fs : Firestore σ) (draw : List Nat)
    (st : Register.State) (emailLower firstName lastName : JSString) (w : World σ) :
    Except JSError Unit × World σ :=
  -- const snap = await getDocs(q);
  match fs.getDocs emailLower w.db with
  | (.error e, db₁) => (.error e, { w with db := db₁, calls := w.calls ++ [.getDocs emailLower] })
  | (.ok snap, db₁) =>
    let w₁ : World σ := { w with db := db₁, calls := w.calls ++ [.getDocs emailLower] }
    -- if (!snap.empty) throw new Error("An account with this email already exists.");
    if !snap.isEmpty then (.error (newError "An account with this email already exists."), w₁)
    else
      -- const passwordHash = await hashPassword(pw);
      let passwordHash := hashPassword rt draw st.pw
      let w₂ : World σ := { w₁ with calls := w₁.calls ++ [.hashPassword st.pw] }
      -- await addDoc(collection(db, "users"), { ... });
      let user : UserData :=
        { firstName := firstName, lastName := lastName, email := trim st.email,
          emailLower := emailLower, passwordHash := passwordHash,
          createdAt := .serverTimestamp }
      match fs.addDoc user w₂.db with
      | (.error e, db₂) => (.error e, { w₂ with db := db₂, calls := w₂.calls ++ [.addDoc user] })
      | (.ok _, db₂) =>
        -- setTimeout(() => nav("/login"), 900);
        (.ok (), { w₂ with db := db₂, calls := w₂.calls ++ [.addDoc user],
                           navigations := w₂.navigations ++ [⟨"/login", false, 900⟩] })

/-- Register.jsx lines 19-53, `handleSubmit`: the state of the component and
the world once the handler has run to completion. -/
def Register.handleSubmit {σ : Type} (rt : Runtime) (fs : Firestore σ) (draw : List Nat)
    (st : Register.State) (w : World σ) : Register.State × World σ :=
  -- setErr(""); setOk("");
  let st₀ := { st with err := "", ok := "" }
  let emailLower := rt.toLowerCase (trim st.email)
  if !emailRegex.test emailLower then ({ st₀ with err := "Please enter a valid email." }, w)
  else if st.pw.length < 6 then ({ st₀ with err := "Password must be at least 6 characters." }, w)
  else if st.pw ≠ st.confirm then ({ st₀ with err := "Passwords do not match." }, w)
  else
    let parts := split whiteSpaceRun (trim st.fullName)
    let firstName := orEmpty parts.head?
    let lastName := join (utf16 " ") (parts.drop 1)
    -- setLoading(true); try { ... } catch (e2) { ... } finally { setLoading(false); }
    match Register.tryBlock rt fs draw st emailLower firstName lastName w with
    | (.ok _, w₁) =>
      ({ st₀ with ok := "Account created, Redirecting to login…", loading := false }, w₁)
    | (.error e₂, w₁) =>
      ({ st₀ with err := e₂.messageOr "Registration failed.", loading := false }, w₁)

/-! ## Login flow (`src/pages/Login.jsx`) -/

/-- The `useState` cells of the `Login` component. -/
structure Login.State where
  email : JSString
  pw : JSString
  loading : Bool
  err : String
deriving DecidableEq, Repr

/-- Login.jsx lines 19-30, the body of the `try`: the thrown error, if any, and
the world afterwards.  `now` is `new Date().toISOString()` at the time of the
call. -/
def Login.tryBlock {σ : Type} (rt : Runtime) (fs : Firestore σ) (now : JSString)
    (st : Login.State) (w : World σ) : Except JSError Unit × World σ :=
  let key := rt.toLowerCase (trim st.email)
  -- const snap = await getDocs(q);
  match fs.getDocs key w.db with
  | (.error e, db₁) => (.error e, { w with db := db₁, calls := w.calls ++ [.getDocs key] })
  | (.ok snap, db₁) =>
    let w₁ : World σ := { w with db := db₁, calls := w.calls ++ [.getDocs key] }
    -- if (snap.empty) throw new Error("Invalid email or password.");
    match snap with
    | [] => (.error (newError "Invalid email or password."), w₁)
    | doc :: _ =>
      -- const user = { id: snap.docs[0].id, ...snap.docs[0].data() };
      let user := doc
      -- const ok = await verifyPassword(pw, user.passwordHash);
      let ok := verifyPassword rt st.pw user.data.passwordHash
      let w₂ : World σ :=
        { w₁ with calls := w₁.calls ++ [.verifyPassword st.pw user.data.passwordHash] }
      -- if (!ok) throw new Error("Invalid email or password.");
      if !ok then (.error (newError "Invalid email or password."), w₂)
      else
        -- localStorage.setItem("user_data", JSON.stringify({ ... })); nav("/home");
        let text := JSON.stringifyRecord
          [("userId", user.id), ("email", user.data.email),
           ("firstName", user.data.firstName), ("signedInAt", now)]
        (.ok (), { w₂ with localStorage := w₂.localStorage.setItem "user_data" text,
                           navigations := w₂.navigations ++ [⟨"/home", false, 0⟩] })

/-- Login.jsx lines 14-34, `handleSubmit`: the state of the component and the
world once the handler has run to completion. -/
def Login.handleSubmit {σ : Type} (rt : Runtime) (fs : Firestore σ) (now : JSString)
    (st : Login.State) (w : World σ) : Login.State × World σ :=
  -- setErr(""); setLoading(true); try { ... } catch (e2) { ... } finally { setLoading(false); }
  match Login.tryBlock rt fs now st w with
  | (.ok _, w₁) => ({ st with err := "", loading := false }, w₁)
  | (.error e₂, w₁) => ({ st with err := e₂.messageOr "Login failed", loading := false }, w₁)

/-! ## Protected view (`src/pages/Home.jsx`) -/

/-- The expression `x || "null"` of Home.jsx line 6, for `x` the result of
`getItem`: a string or `null`. -/
def orNullText : Option JSString → JSString
  | some s => if s.isEmpty then utf16 "null" else s
  | none => utf16 "null"

/-- Home.jsx line 6, the Session Store read:
`JSON.parse(localStorage.getItem("user_data") || "null")`. -/
def Home.readSession (ls : Storage) : Except JSError JSValue :=
  JSON.parse (orNullText (ls.getItem "user_data"))

/-- What a render of `Home` returns: `null`, or the page drawn from the
session. -/
inductive Home.Rendered where
  | nothing
  | page (session : JSValue)

/-- Home.jsx lines 4-22, one render of `Home`: what it returns and the world
afterwards, or the error thrown out of the render. -/
def Home {σ : Type} (w : World σ) : Except JSError (Home.Rendered × World σ) :=
  match Home.readSession w.localStorage with
  | .error e => .error e
  | .ok session =>
    -- if (!session) { nav("/login", { replace: true }); return null; }
    if !session.toBoolean then
      .ok (.nothing, { w with navigations := w.navigations ++ [⟨"/login", true, 0⟩] })
    else .ok (.page session, w)

/-- Home.jsx line 16, the `onClick` of the Logout button:
`localStorage.removeItem("user_data"); nav("/login");`. -/
def Home.logout {σ : Type} (w : World σ) : World σ :=
  { w with localStorage := w.localStorage.removeItem "user_data",
           navigations := w.navigations ++ [⟨"/login", false, 0⟩] }

/-! ## Concrete collaborators

Instances of the environment on which the flows can be evaluated. -/

/-- A runtime for evaluating the flows on Basic Latin input: lower-casing is
the ASCII one, and the derivation is a stand-in that keeps its arguments. -/
def asciiRuntime : Runtime where
  toLowerCase := asciiToLowerCase
  derive := fun cost salt plaintext => cost :: salt ++ plaintext

/-- An in-memory `users` collection that never fails: the query returns the
documents whose `emailLower` equals the key, the insert appends a document
under a fresh id. -/
def memoryStore : Firestore (List QueryDocumentSnapshot) where
  getDocs := fun key docs => (.ok (docs.filter (fun d => d.data.emailLower == key)), docs)
  addDoc := fun user docs =>
    (.ok (List.replicate (docs.length + 1) 105),
     docs ++ [⟨List.replicate (docs.length + 1) 105, { user with createdAt := .time docs.length }⟩])

/-- A store that is out of reach: every operation throws the given error and
leaves the documents alone. -/
def failingStore (e : JSError) : Firestore (List QueryDocumentSnapshot) where
  getDocs := fun _ docs => (.error e, docs)
  addDoc := fun _ docs => (.error e, docs)

/-- A world with the given documents, empty `localStorage`, and nothing
recorded. -/
def freshWorld (docs : List QueryDocumentSnapshot) : World (List QueryDocumentSnapshot) where
  db := docs
  localStorage := fun _ => none
  calls := []
  navigations := []

/-- A client whose `user_data` slot holds the given text, everything else as
in `freshWorld`. -/
def worldWithSlot (text : JSString) : World (List QueryDocumentSnapshot) where
  db := []
  localStorage := Storage.setItem (fun _ => none) "user_data" text
  calls := []
  navigations := []

/-- A `Register` form as filled in by the user, before the first submit. -/
def Register.form (fullName email pw confirm : String) : Register.State where
  fullName := utf16 fullName
  email := utf16 email
  pw := utf16 pw
  confirm := utf16 confirm
  loading := false
  err := ""
  ok := ""

/-- A `Login` form as filled in by the user, before the first submit. -/
def Login.form (email pw : String) : Login.State where
  email := utf16 email
  pw := utf16 pw
  loading := false
  err := ""

/-! ## Conditions stated in the specification -/

/-- The email condition in the words of the specification: total length
between 3 and 255, a non-empty local part and a non-empty domain separated by
`@`, no white space, and a dot in the domain. -/
def SpecEmailShape (s : JSString) : Prop :=
  3 ≤ s.length ∧ s.length ≤ 255 ∧ (∀ u ∈ s, isWhiteSpace u = false) ∧
  ∃ loc dom, s = loc ++ 64 :: dom ∧ loc ≠ [] ∧ dom ≠ [] ∧ 46 ∈ dom

/-- The email condition with the two points the pattern is stricter on: the
`@` is the only one, and the domain has a dot that is neither its first nor
its last code unit. -/
def EmailShape (s : JSString) : Prop :=
  3 ≤ s.length ∧ s.length ≤ 255 ∧ (∀ u ∈ s, isWhiteSpace u = false) ∧
  ∃ loc dom, s = loc ++ 64 :: dom ∧ loc ≠ [] ∧ 64 ∉ loc ∧ 64 ∉ dom ∧
    ∃ sub tld, dom = sub ++ 46 :: tld ∧ sub ≠ [] ∧ tld ≠ []

/-- The runs of non-whitespace code units met when scanning a string from the
left; `cur` is the run in progress.  A run ends at a white-space code unit or
at the end of the string, and an empty run is no token. -/
def tokensFrom : JSString → JSString → List JSString
  | cur, [] => if cur = [] then [] else [cur]
  | cur, u :: t =>
    if isWhiteSpace u then (if cur = [] then tokensFrom [] t else cur :: tokensFrom [] t)
    else tokensFrom (cur ++ [u]) t

/-- The tokens of a string in the words of the specification: its maximal runs
of non-whitespace code units, in order. -/
def tokens (s : JSString) : List JSString :=
  tokensFrom [] s

/-- A string that does not end in white space. -/
def NoTrailingSpace (s : JSString) : Prop :=
  ∀ init z, s = init ++ [z] → isWhiteSpace z = false

/-- Two strings that differ at most in letter case, as the runtime sees it:
they have the same lower-case form. -/
def SameUpToCase (rt : Runtime) (a b : JSString) : Prop :=
  rt.toLowerCase a = rt.toLowerCase b

/-- Two code units that are equal or the two cases of one Basic Latin letter. -/
def SameLetter (x y : Nat) : Prop :=
  asciiLowerUnit x = asciiLowerUnit y

instance SameLetter.decidable (x y : Nat) : Decidable (SameLetter x y) :=
  inferInstanceAs (Decidable (asciiLowerUnit x = asciiLowerUnit y))

/-- Two strings of the same length that differ at most in the case of Basic
Latin letters. -/
def SameUpToAsciiCase (a b : JSString) : Prop :=
  List.Forall₂ SameLetter a b

instance SameUpToAsciiCase.decidable (a b : JSString) : Decidable (SameUpToAsciiCase a b) :=
  inferInstanceAs (Decidable (List.Forall₂ SameLetter a b))

/-- A string made of white space only. -/
def AllSpace (s : JSString) : Prop :=
  ∀ u ∈ s, isWhiteSpace u = true

instance AllSpace.decidable (s : JSString) : Decidable (AllSpace s) :=
  inferInstanceAs (Decidable (∀ u ∈ s, isWhiteSpace u = true))

/-- A runtime whose lower-casing of Basic Latin strings is the ASCII one, as
`String.prototype.toLowerCase` is. -/
def Runtime.LowersAscii (rt : Runtime) : Prop :=
  ∀ s, IsAscii s → rt.toLowerCase s = asciiToLowerCase s

/-- The session record as a value: an object with the properties `userId`,
`email`, `firstName` and `signedInAt`, in that order, each a string. -/
def sessionRecord (userId email firstName signedInAt : JSString) : JSValue :=
  .object [(utf16 "userId", .string userId), (utf16 "email", .string email),
    (utf16 "firstName", .string firstName), (utf16 "signedInAt", .string signedInAt)]

/-- The value an object literal with string-valued properties denotes. -/
def recordValue (props : List (String × JSString)) : JSValue :=
  .object (props.map (fun kv => (utf16 kv.1, JSValue.string kv.2)))

/-! ## Properties of the registration flow -/

theorem Register.handleSubmit_invalid_email {σ : Type} (rt : Runtime) (fs : Firestore σ)
    (draw : List Nat) (st : Register.State) (w : World σ)
    (h : emailRegex.test (rt.toLowerCase (trim st.email)) = false) :
    Register.handleSubmit rt fs draw st w =
      ({ st with err := "Please enter a valid email.", ok := "" }, w) := by
  simp [Register.handleSubmit, h]

/-- A short password ends the handler at line 25. -/
theorem Register.handleSubmit_short_password {σ : Type} (rt : Runtime) (fs : Firestore σ)
    (draw : List Nat) (st : Register.State) (w : World σ)
    (h : emailRegex.test (rt.toLowerCase (trim st.email)) = true) (h6 : st.pw.length < 6) :
    Register.handleSubmit rt fs draw st w =
      ({ st with err := "Password must be at least 6 characters.", ok := "" }, w) := by
  simp [Register.handleSubmit, h, h6]

/-- A wrong confirmation ends the handler at line 26. -/
theorem Register.handleSubmit_mismatch {σ : Type} (rt : Runtime) (fs : Firestore σ)
    (draw : List Nat) (st : Register.State) (w : World σ)
    (h : emailRegex.test (rt.toLowerCase (trim st.email)) = true) (h6 : ¬ st.pw.length < 6)
    (hne : st.pw ≠ st.confirm) :
    Register.handleSubmit rt fs draw st w =
      ({ st with err := "Passwords do not match.", ok := "" }, w) := by
  simp [Register.handleSubmit, h, h6, hne]

/-- A form that passes the three checks runs the `try` block, and the handler
reports what the block returned or threw. -/
theorem Register.handleSubmit_valid {σ : Type} (rt : Runtime) (fs : Firestore σ)
    (draw : List Nat) (st : Register.State) (w : World σ)
    (h : emailRegex.test (rt.toLowerCase (trim st.email)) = true) (h6 : ¬ st.pw.length < 6)
    (heq : st.pw = st.confirm) :
    Register.handleSubmit rt fs draw st w =
      match Register.tryBlock rt fs draw st (rt.toLowerCase (trim st.email))
          (orEmpty (split whiteSpaceRun (trim st.fullName)).head?)
          (join (utf16 " ") ((split whiteSpaceRun (trim st.fullName)).drop 1)) w with
      | (.ok _, w₁) =>
        ({ st with err := "", ok := "Account created, Redirecting to login…", loading := false }, w₁)
      | (.error e₂, w₁) =>
        ({ st with err := e₂.messageOr "Registration failed.", ok := "", loading := false }, w₁) := by
  unfold Register.handleSubmit
  simp only [h, Bool.not_true, Bool.false_eq_true, if_false, if_neg h6, if_neg (not_not.mpr heq)]

/-- The `try` block when the lookup throws. -/
theorem Register.tryBlock_lookup_error {σ : Type} (rt : Runtime) (fs : Firestore σ)
    (draw : List Nat) (st : Register.State) (key fn ln : JSString) (w : World σ)
    (e : JSError) (db₁ : σ) (hg : fs.getDocs key w.db = (.error e, db₁)) :
    Register.tryBlock rt fs draw st key fn ln w =
      (.error e, { w with db := db₁, calls := w.calls ++ [.getDocs key] }) := by
  simp [Register.tryBlock, hg]

/-- The `try` block when the lookup finds a document. -/
theorem Register.tryBlock_found {σ : Type} (rt : Runtime) (fs : Firestore σ)
    (draw : List Nat) (st : Register.State) (key fn ln : JSString) (w : World σ)
    (snap : List QueryDocumentSnapshot) (db₁ : σ) (hg : fs.getDocs key w.db = (.ok snap, db₁))
    (hs : snap ≠ []) :
    Register.tryBlock rt fs draw st key fn ln w =
      (.error (newError "An account with this email already exists."),
       { w with db := db₁, calls := w.calls ++ [.getDocs key] }) := by
  simp [Register.tryBlock, hg, hs]

/-- The `try` block when the lookup finds nothing: hash, then insert. -/
theorem Register.tryBlock_free {σ : Type} (rt : Runtime) (fs : Firestore σ)
    (draw : List Nat) (st : Register.State) (key fn ln : JSString) (w : World σ)
    (db₁ : σ) (hg : fs.getDocs key w.db = (.ok [], db₁)) :
    Register.tryBlock rt fs draw st key fn ln w =
      match fs.addDoc ⟨fn, ln, trim st.email, key, hashPassword rt draw st.pw, .serverTimestamp⟩ db₁ with
      | (.error e, db₂) =>
        (.error e, { w with db := db₂, calls := w.calls ++ [Call.getDocs key, Call.hashPassword st.pw,
          Call.addDoc ⟨fn, ln, trim st.email, key, hashPassword rt draw st.pw, .serverTimestamp⟩] })
      | (.ok _, db₂) =>
        (.ok (), { w with
                   db := db₂,
                   calls := w.calls ++ [Call.getDocs key, Call.hashPassword st.pw,
                     Call.addDoc ⟨fn, ln, trim st.email, key, hashPassword rt draw st.pw,
                       .serverTimestamp⟩],
                   navigations := w.navigations ++ [⟨"/login", false, 900⟩] }) := by
  simp only [Register.tryBlock, hg]
  rcases fs.addDoc _ db₁ with ⟨r, db₂⟩
  cases r <;> simp

/-- C1: registration validation runs in the order email, password length,
confirmation, and the first failing check decides the error message; when all
three pass no validation error is produced and the flow goes on to the lookup
by `emailLower`. -/
theorem C1_validation_order {σ : Type} (rt : Runtime) (fs : Firestore σ) (draw : List Nat)
    (st : Register.State) (w : World σ) :
    (emailRegex.test (rt.toLowerCase (trim st.email)) = false →
      (Register.handleSubmit rt fs draw st w).1.err = "Please enter a valid email.") ∧
    (emailRegex.test (rt.toLowerCase (trim st.email)) = true → st.pw.length < 6 →
      (Register.handleSubmit rt fs draw st w).1.err =
        "Password must be at least 6 characters.") ∧
    (emailRegex.test (rt.toLowerCase (trim st.email)) = true → ¬ st.pw.length < 6 →
      st.pw ≠ st.confirm →
      (Register.handleSubmit rt fs draw st w).1.err = "Passwords do not match.") ∧
    (emailRegex.test (rt.toLowerCase (trim st.email)) = true → ¬ st.pw.length < 6 →
      st.pw = st.confirm →
      ∃ more, (Register.handleSubmit rt fs draw st w).2.calls =
        w.calls ++ Call.getDocs (rt.toLowerCase (trim st.email)) :: more) := by
  refine ⟨?_, ?_, ?_, ?_⟩
  · intro h
    rw [Register.handleSubmit_invalid_email rt fs draw st w h]
  · intro h h6
    rw [Register.handleSubmit_short_password rt fs draw st w h h6]
  · intro h h6 hne
    rw [Register.handleSubmit_mismatch rt fs draw st w h h6 hne]
  · intro h h6 heq
    rw [Register.handleSubmit_valid rt fs draw st w h h6 heq]
    rcases hg : fs.getDocs (rt.toLowerCase (trim st.email)) w.db with ⟨r, db₁⟩
    cases r with
    | error e =>
      rw [Register.tryBlock_lookup_error rt fs draw st _ _ _ w e db₁ hg]
      exact ⟨[], rfl⟩
    | ok snap =>
      by_cases hs : snap = []
      · subst hs
        rw [Register.tryBlock_free rt fs draw st _ _ _ w db₁ hg]
        rcases fs.addDoc _ db₁ with ⟨r₂, db₂⟩
        cases r₂ <;> exact ⟨_, rfl⟩
      · rw [Register.tryBlock_found rt fs draw st _ _ _ w snap db₁ hg hs]
        exact ⟨[], rfl⟩

/-- C1 at concrete forms: a malformed email with a short, unconfirmed password
reports the email error; a good email with a short, unconfirmed password
reports the length error; a good email and password with a wrong confirmation
reports the mismatch; a valid form reaches the lookup. -/
theorem C1_validation_order_witness :
    (Register.handleSubmit asciiRuntime memoryStore []
        (Register.form "Ada Lovelace" "ada.x.com" "abc" "xyz") (freshWorld [])).1.err =
      "Please enter a valid email." ∧
    (Register.handleSubmit asciiRuntime memoryStore []
        (Register.form "Ada Lovelace" "Ada@X.com" "abcde" "xyz") (freshWorld [])).1.err =
      "Password must be at least 6 characters." ∧
    (Register.handleSubmit asciiRuntime memoryStore []
        (Register.form "Ada Lovelace" "Ada@X.com" "secret1" "secret2") (freshWorld [])).1.err =
      "Passwords do not match." ∧
    (∃ more, (Register.handleSubmit asciiRuntime memoryStore []
        (Register.form "Ada Lovelace" "Ada@X.com" "secret1" "secret1") (freshWorld [])).2.calls =
      [] ++ Call.getDocs (utf16 "ada@x.com") :: more) :=
  ⟨(C1_validation_order asciiRuntime memoryStore []
      (Register.form "Ada Lovelace" "ada.x.com" "abc" "xyz") (freshWorld [])).1 (by decide),
   (C1_validation_order asciiRuntime memoryStore []
      (Register.form "Ada Lovelace" "Ada@X.com" "abcde" "xyz") (freshWorld [])).2.1
      (by decide) (by decide),
   (C1_validation_order asciiRuntime memoryStore []
      (Register.form "Ada Lovelace" "Ada@X.com" "secret1" "secret2") (freshWorld [])).2.2.1
      (by decide) (by decide) (by decide),
   (C1_validation_order asciiRuntime memoryStore []
      (Register.form "Ada Lovelace" "Ada@X.com" "secret1" "secret1") (freshWorld [])).2.2.2
      (by decide) (by decide) (by decide)⟩

/-- C2: a registration input that fails any of the three validation checks
makes no Gateway call: the handler leaves the world exactly as it found it, so
no call is recorded and the store is unchanged. -/
theorem C2_invalid_input_no_gateway_call {σ : Type} (rt : Runtime) (fs : Firestore σ)
    (draw : List Nat) (st : Register.State) (w : World σ)
    (hinvalid : emailRegex.test (rt.toLowerCase (trim st.email)) = false ∨
      st.pw.length < 6 ∨ st.pw ≠ st.confirm) :
    (Register.handleSubmit rt fs draw st w).2 = w ∧
    (Register.handleSubmit rt fs draw st w).2.calls = w.calls ∧
    (Register.handleSubmit rt fs draw st w).2.db = w.db := by
  have key : (Register.handleSubmit rt fs draw st w).2 = w := by
    by_cases h : emailRegex.test (rt.toLowerCase (trim st.email)) = true
    · by_cases h6 : st.pw.length < 6
      · rw [Register.handleSubmit_short_password rt fs draw st w h h6]
      · have hne : st.pw ≠ st.confirm := by
          rcases hinvalid with h' | h' | h'
          · rw [h] at h'; exact absurd h' (by decide)
          · exact absurd h' h6
          · exact h'
        rw [Register.handleSubmit_mismatch rt fs draw st w h h6 hne]
    · rw [Register.handleSubmit_invalid_email rt fs draw st w (by simpa using h)]
  exact ⟨key, by rw [key], by rw [key]⟩

/-- C2 at a concrete form: a password of length 5 against a store holding one
document leaves the calls and the documents as they were. -/
theorem C2_invalid_input_no_gateway_call_witness :
    (Register.handleSubmit asciiRuntime memoryStore [7]
        (Register.form "Ada Lovelace" "Ada@X.com" "abcde" "abcde")
        (freshWorld [⟨[105], ⟨[], [], utf16 "z@y.org", utf16 "z@y.org",
          hashPassword asciiRuntime [1] (utf16 "hunter22"), .time 0⟩⟩])).2 =
      freshWorld [⟨[105], ⟨[], [], utf16 "z@y.org", utf16 "z@y.org",
          hashPassword asciiRuntime [1] (utf16 "hunter22"), .time 0⟩⟩] :=
  (C2_invalid_input_no_gateway_call asciiRuntime memoryStore [7]
    (Register.form "Ada Lovelace" "Ada@X.com" "abcde" "abcde")
    (freshWorld [⟨[105], ⟨[], [], utf16 "z@y.org", utf16 "z@y.org",
          hashPassword asciiRuntime [1] (utf16 "hunter22"), .time 0⟩⟩])
    (Or.inr (Or.inl (by decide)))).1

/-- C3: when validation passes and the lookup by `emailLower` returns a
non-empty result, the flow fails with "An account with this email already
exists.", the only call made is that lookup (no hashing, no insert); and in
every run, an insert is among the calls made only if validation passed and the
lookup returned an empty result. -/
theorem C3_existing_account_no_insert {σ : Type} (rt : Runtime) (fs : Firestore σ)
    (draw : List Nat) (st : Register.State) (w : World σ) :
    (emailRegex.test (rt.toLowerCase (trim st.email)) = true → ¬ st.pw.length < 6 →
      st.pw = st.confirm →
      ∀ snap db₁, fs.getDocs (rt.toLowerCase (trim st.email)) w.db = (.ok snap, db₁) →
        snap ≠ [] →
        (Register.handleSubmit rt fs draw st w).1.err =
          "An account with this email already exists." ∧
        (Register.handleSubmit rt fs draw st w).2.calls =
          w.calls ++ [Call.getDocs (rt.toLowerCase (trim st.email))] ∧
        (Register.handleSubmit rt fs draw st w).2.db = db₁) ∧
    (∀ made, (Register.handleSubmit rt fs draw st w).2.calls = w.calls ++ made →
      (∃ c ∈ made, c.isInsert = true) →
        (emailRegex.test (rt.toLowerCase (trim st.email)) = true ∧ ¬ st.pw.length < 6 ∧
          st.pw = st.confirm) ∧
        ∃ db₁, fs.getDocs (rt.toLowerCase (trim st.email)) w.db = (.ok [], db₁)) := by
  constructor
  · intro h h6 heq snap db₁ hg hs
    rw [Register.handleSubmit_valid rt fs draw st w h h6 heq,
      Register.tryBlock_found rt fs draw st _ _ _ w snap db₁ hg hs]
    exact ⟨by simp [JSError.messageOr, newError], rfl, rfl⟩
  · intro made hmade hins
    by_cases h : emailRegex.test (rt.toLowerCase (trim st.email)) = true
    · by_cases h6 : st.pw.length < 6
      · rw [Register.handleSubmit_short_password rt fs draw st w h h6] at hmade
        have : made = [] := by simpa using hmade
        subst this
        simp at hins
      · by_cases heq : st.pw = st.confirm
        · refine ⟨⟨h, h6, heq⟩, ?_⟩
          rw [Register.handleSubmit_valid rt fs draw st w h h6 heq] at hmade
          rcases hg : fs.getDocs (rt.toLowerCase (trim st.email)) w.db with ⟨r, db₁⟩
          cases r with
          | error e =>
            rw [Register.tryBlock_lookup_error rt fs draw st _ _ _ w e db₁ hg] at hmade
            have : made = [Call.getDocs (rt.toLowerCase (trim st.email))] := by
              simpa using hmade.symm
            subst this
            simp [Call.isInsert] at hins
          | ok snap =>
            by_cases hs : snap = []
            · subst hs
              exact ⟨db₁, rfl⟩
            · rw [Register.tryBlock_found rt fs draw st _ _ _ w snap db₁ hg hs] at hmade
              have : made = [Call.getDocs (rt.toLowerCase (trim st.email))] := by
                simpa using hmade.symm
              subst this
              simp [Call.isInsert] at hins
        · rw [Register.handleSubmit_mismatch rt fs draw st w h h6 heq] at hmade
          have : made = [] := by simpa using hmade
          subst this
          simp at hins
    · rw [Register.handleSubmit_invalid_email rt fs draw st w (by simpa using h)] at hmade
      have : made = [] := by simpa using hmade
      subst this
      simp at hins

/-- C3 at a concrete store: registering `Ada@X.com` when a document with
`emailLower = "ada@x.com"` exists reports the duplicate and only looks up. -/
theorem C3_existing_account_no_insert_witness :
    (Register.handleSubmit asciiRuntime memoryStore [7]
        (Register.form "Ada Lovelace" "Ada@X.com" "secret1" "secret1")
        (freshWorld [⟨[105], ⟨[], [], utf16 "ada@x.com", utf16 "ada@x.com",
          hashPassword asciiRuntime [1] (utf16 "hunter22"), .time 0⟩⟩])).1.err =
      "An account with this email already exists." ∧
    (Register.handleSubmit asciiRuntime memoryStore [7]
        (Register.form "Ada Lovelace" "Ada@X.com" "secret1" "secret1")
        (freshWorld [⟨[105], ⟨[], [], utf16 "ada@x.com", utf16 "ada@x.com",
          hashPassword asciiRuntime [1] (utf16 "hunter22"), .time 0⟩⟩])).2.calls =
      [] ++ [Call.getDocs (utf16 "ada@x.com")] ∧
    (Register.handleSubmit asciiRuntime memoryStore [7]
        (Register.form "Ada Lovelace" "Ada@X.com" "secret1" "secret1")
        (freshWorld [⟨[105], ⟨[], [], utf16 "ada@x.com", utf16 "ada@x.com",
          hashPassword asciiRuntime [1] (utf16 "hunter22"), .time 0⟩⟩])).2.db =
      [⟨[105], ⟨[], [], utf16 "ada@x.com", utf16 "ada@x.com",
          hashPassword asciiRuntime [1] (utf16 "hunter22"), .time 0⟩⟩] :=
  (C3_existing_account_no_insert asciiRuntime memoryStore [7]
    (Register.form "Ada Lovelace" "Ada@X.com" "secret1" "secret1")
    (freshWorld [⟨[105], ⟨[], [], utf16 "ada@x.com", utf16 "ada@x.com",
      hashPassword asciiRuntime [1] (utf16 "hunter22"), .time 0⟩⟩])).1
    (by decide) (by decide) (by decide)
    [⟨[105], ⟨[], [], utf16 "ada@x.com", utf16 "ada@x.com",
      hashPassword asciiRuntime [1] (utf16 "hunter22"), .time 0⟩⟩]
    [⟨[105], ⟨[], [], utf16 "ada@x.com", utf16 "ada@x.com",
      hashPassword asciiRuntime [1] (utf16 "hunter22"), .time 0⟩⟩]
    rfl (by decide)

/-! ## Properties of the login flow -/

theorem Login.tryBlock_lookup_threw {σ : Type} (rt : Runtime) (fs : Firestore σ)
    (now : JSString) (st : Login.State) (w : World σ) (e : JSError) (db₁ : σ)
    (hg : fs.getDocs (rt.toLowerCase (trim st.email)) w.db = (.error e, db₁)) :
    Login.tryBlock rt fs now st w =
      (.error e, { w with db := db₁,
                          calls := w.calls ++ [.getDocs (rt.toLowerCase (trim st.email))] }) := by
  simp [Login.tryBlock, hg]

/-- The `try` block of the login when the lookup finds nothing. -/
theorem Login.tryBlock_not_found {σ : Type} (rt : Runtime) (fs : Firestore σ)
    (now : JSString) (st : Login.State) (w : World σ) (db₁ : σ)
    (hg : fs.getDocs (rt.toLowerCase (trim st.email)) w.db = (.ok [], db₁)) :
    Login.tryBlock rt fs now st w =
      (.error (newError "Invalid email or password."),
       { w with db := db₁,
                calls := w.calls ++ [.getDocs (rt.toLowerCase (trim st.email))] }) := by
  simp [Login.tryBlock, hg]

/-- The `try` block of the login when the password does not verify. -/
theorem Login.tryBlock_wrong_password {σ : Type} (rt : Runtime) (fs : Firestore σ)
    (now : JSString) (st : Login.State) (w : World σ) (doc : QueryDocumentSnapshot)
    (docs : List QueryDocumentSnapshot) (db₁ : σ)
    (hg : fs.getDocs (rt.toLowerCase (trim st.email)) w.db = (.ok (doc :: docs), db₁))
    (hv : verifyPassword rt st.pw doc.data.passwordHash = false) :
    Login.tryBlock rt fs now st w =
      (.error (newError "Invalid email or password."),
       { w with db := db₁,
                calls := w.calls ++ [Call.getDocs (rt.toLowerCase (trim st.email)),
                  Call.verifyPassword st.pw doc.data.passwordHash] }) := by
  simp [Login.tryBlock, hg, hv]

/-- What the `catch` of the login shows for a thrown error. -/
theorem Login.handleSubmit_error {σ : Type} (rt : Runtime) (fs : Firestore σ)
    (now : JSString) (st : Login.State) (w w₁ : World σ) (e : JSError)
    (h : Login.tryBlock rt fs now st w = (.error e, w₁)) :
    Login.handleSubmit rt fs now st w =
      ({ st with err := e.messageOr "Login failed", loading := false }, w₁) := by
  simp [Login.handleSubmit, h]

/-- C4: a login whose lookup finds no user and a login whose user is found but
whose password verification returns false report the same error message,
"Invalid email or password.", whatever the emails, passwords and stores of the
two runs. -/
theorem C4_same_message_unknown_or_wrong_password {σ τ : Type} (rt : Runtime)
    (fs₁ : Firestore σ) (fs₂ : Firestore τ) (now₁ now₂ : JSString)
    (st₁ st₂ : Login.State) (w₁ : World σ) (w₂ : World τ)
    (db₁ : σ) (db₂ : τ) (doc : QueryDocumentSnapshot) (docs : List QueryDocumentSnapshot)
    (hnone : fs₁.getDocs (rt.toLowerCase (trim st₁.email)) w₁.db = (.ok [], db₁))
    (hfound : fs₂.getDocs (rt.toLowerCase (trim st₂.email)) w₂.db = (.ok (doc :: docs), db₂))
    (hwrong : verifyPassword rt st₂.pw doc.data.passwordHash = false) :
    (Login.handleSubmit rt fs₁ now₁ st₁ w₁).1.err = "Invalid email or password." ∧
    (Login.handleSubmit rt fs₂ now₂ st₂ w₂).1.err = "Invalid email or password." ∧
    (Login.handleSubmit rt fs₁ now₁ st₁ w₁).1.err =
      (Login.handleSubmit rt fs₂ now₂ st₂ w₂).1.err := by
  have h₁ : (Login.handleSubmit rt fs₁ now₁ st₁ w₁).1.err = "Invalid email or password." := by
    rw [Login.handleSubmit_error rt fs₁ now₁ st₁ w₁ _ _
      (Login.tryBlock_not_found rt fs₁ now₁ st₁ w₁ db₁ hnone)]
    simp [JSError.messageOr, newError]
  have h₂ : (Login.handleSubmit rt fs₂ now₂ st₂ w₂).1.err = "Invalid email or password." := by
    rw [Login.handleSubmit_error rt fs₂ now₂ st₂ w₂ _ _
      (Login.tryBlock_wrong_password rt fs₂ now₂ st₂ w₂ doc docs db₂ hfound hwrong)]
    simp [JSError.messageOr, newError]
  exact ⟨h₁, h₂, h₁.trans h₂.symm⟩

/-- C4 at a concrete store holding `ada@x.com` with password `secret1`: a login
as `bob@x.com` and a login as `ada@x.com` with `secret2` give the same text. -/
theorem C4_same_message_unknown_or_wrong_password_witness :
    (Login.handleSubmit asciiRuntime memoryStore (utf16 "2024-05-01T10:00:00.000Z")
        (Login.form "bob@x.com" "secret1")
        (freshWorld [⟨[105], ⟨utf16 "Ada", utf16 "Lovelace", utf16 "Ada@X.com",
          utf16 "ada@x.com", hashPassword asciiRuntime [1] (utf16 "secret1"), .time 0⟩⟩])).1.err =
      "Invalid email or password." ∧
    (Login.handleSubmit asciiRuntime memoryStore (utf16 "2024-05-01T10:00:05.000Z")
        (Login.form "ada@x.com" "secret2")
        (freshWorld [⟨[105], ⟨utf16 "Ada", utf16 "Lovelace", utf16 "Ada@X.com",
          utf16 "ada@x.com", hashPassword asciiRuntime [1] (utf16 "secret1"), .time 0⟩⟩])).1.err =
      "Invalid email or password." ∧
    (Login.handleSubmit asciiRuntime memoryStore (utf16 "2024-05-01T10:00:00.000Z")
        (Login.form "bob@x.com" "secret1")
        (freshWorld [⟨[105], ⟨utf16 "Ada", utf16 "Lovelace", utf16 "Ada@X.com",
          utf16 "ada@x.com", hashPassword asciiRuntime [1] (utf16 "secret1"), .time 0⟩⟩])).1.err =
    (Login.handleSubmit asciiRuntime memoryStore (utf16 "2024-05-01T10:00:05.000Z")
        (Login.form "ada@x.com" "secret2")
        (freshWorld [⟨[105], ⟨utf16 "Ada", utf16 "Lovelace", utf16 "Ada@X.com",
          utf16 "ada@x.com", hashPassword asciiRuntime [1] (utf16 "secret1"), .time 0⟩⟩])).1.err :=
  C4_same_message_unknown_or_wrong_password asciiRuntime memoryStore memoryStore
    (utf16 "2024-05-01T10:00:00.000Z") (utf16 "2024-05-01T10:00:05.000Z")
    (Login.form "bob@x.com" "secret1") (Login.form "ada@x.com" "secret2")
    (freshWorld [⟨[105], ⟨utf16 "Ada", utf16 "Lovelace", utf16 "Ada@X.com",
      utf16 "ada@x.com", hashPassword asciiRuntime [1] (utf16 "secret1"), .time 0⟩⟩])
    (freshWorld [⟨[105], ⟨utf16 "Ada", utf16 "Lovelace", utf16 "Ada@X.com",
      utf16 "ada@x.com", hashPassword asciiRuntime [1] (utf16 "secret1"), .time 0⟩⟩])
    [⟨[105], ⟨utf16 "Ada", utf16 "Lovelace", utf16 "Ada@X.com",
      utf16 "ada@x.com", hashPassword asciiRuntime [1] (utf16 "secret1"), .time 0⟩⟩]
    [⟨[105], ⟨utf16 "Ada", utf16 "Lovelace", utf16 "Ada@X.com",
      utf16 "ada@x.com", hashPassword asciiRuntime [1] (utf16 "secret1"), .time 0⟩⟩]
    ⟨[105], ⟨utf16 "Ada", utf16 "Lovelace", utf16 "Ada@X.com",
      utf16 "ada@x.com", hashPassword asciiRuntime [1] (utf16 "secret1"), .time 0⟩⟩
    [] rfl rfl (by decide)

/-- C6 as stated fails: when the lookup throws an error whose message is
"Missing or insufficient permissions.", the login flow reports that message
and not "Login failed". -/
theorem C6_counterexample :
    (failingStore ⟨some "Missing or insufficient permissions."⟩).getDocs
        (asciiRuntime.toLowerCase (trim (Login.form "ada@x.com" "secret1").email))
        (freshWorld []).db =
      (.error ⟨some "Missing or insufficient permissions."⟩, []) ∧
    (Login.handleSubmit asciiRuntime (failingStore ⟨some "Missing or insufficient permissions."⟩)
        (utf16 "2024-05-01T10:00:00.000Z") (Login.form "ada@x.com" "secret1")
        (freshWorld [])).1.err = "Missing or insufficient permissions." ∧
    (Login.handleSubmit asciiRuntime (failingStore ⟨some "Missing or insufficient permissions."⟩)
        (utf16 "2024-05-01T10:00:00.000Z") (Login.form "ada@x.com" "secret1")
        (freshWorld [])).1.err ≠ "Login failed" := by
  refine ⟨rfl, by decide, by decide⟩

/-- C6, amended: when the lookup throws during login, the flow reports the
message of the thrown error if it has a non-empty one, and the generic "Login
failed" if the error has no message or an empty one; either way no session is
saved, nothing is navigated to, and the lookup is the only call made. -/
theorem C6_lookup_failure_message {σ : Type} (rt : Runtime) (fs : Firestore σ)
    (now : JSString) (st : Login.State) (w : World σ) (e : JSError) (db₁ : σ)
    (hfail : fs.getDocs (rt.toLowerCase (trim st.email)) w.db = (.error e, db₁)) :
    (∀ m, e.message = some m → m ≠ "" → (Login.handleSubmit rt fs now st w).1.err = m) ∧
    (e.message = none ∨ e.message = some "" →
      (Login.handleSubmit rt fs now st w).1.err = "Login failed") ∧
    (Login.handleSubmit rt fs now st w).2.localStorage = w.localStorage ∧
    (Login.handleSubmit rt fs now st w).2.navigations = w.navigations ∧
    (Login.handleSubmit rt fs now st w).2.calls =
      w.calls ++ [Call.getDocs (rt.toLowerCase (trim st.email))] := by
  rw [Login.handleSubmit_error rt fs now st w _ _
    (Login.tryBlock_lookup_threw rt fs now st w e db₁ hfail)]
  refine ⟨?_, ?_, rfl, rfl, rfl⟩
  · intro m hm hne
    simp [JSError.messageOr, hm, hne]
  · intro h
    rcases h with h | h <;> simp [JSError.messageOr, h]

/-- C6, amended, at concrete stores: an error with a message shows its message,
an error without one shows "Login failed". -/
theorem C6_lookup_failure_message_witness :
    (Login.handleSubmit asciiRuntime (failingStore ⟨some "Missing or insufficient permissions."⟩)
        (utf16 "2024-05-01T10:00:00.000Z") (Login.form "ada@x.com" "secret1")
        (freshWorld [])).1.err = "Missing or insufficient permissions." ∧
    (Login.handleSubmit asciiRuntime (failingStore ⟨none⟩)
        (utf16 "2024-05-01T10:00:00.000Z") (Login.form "ada@x.com" "secret1")
        (freshWorld [])).1.err = "Login failed" :=
  ⟨(C6_lookup_failure_message asciiRuntime
      (failingStore ⟨some "Missing or insufficient permissions."⟩)
      (utf16 "2024-05-01T10:00:00.000Z") (Login.form "ada@x.com" "secret1") (freshWorld [])
      ⟨some "Missing or insufficient permissions."⟩ [] rfl).1
      "Missing or insufficient permissions." rfl (by decide),
   (C6_lookup_failure_message asciiRuntime (failingStore ⟨none⟩)
      (utf16 "2024-05-01T10:00:00.000Z") (Login.form "ada@x.com" "secret1") (freshWorld [])
      ⟨none⟩ [] rfl).2.1 (Or.inl rfl)⟩

/-! ## Properties of the credential hasher -/

/-- C8: for every password and every salt the hasher may draw, verifying the
password against its own hash returns true; so two hashes of one password,
drawn with any two salts, both verify it. -/
theorem C8_verify_own_hash (rt : Runtime) (p : JSString) (draw₁ draw₂ : List Nat) :
    verifyPassword rt p (hashPassword rt draw₁ p) = true ∧
    verifyPassword rt p (hashPassword rt draw₂ p) = true := by
  have h : ∀ draw, verifyPassword rt p (hashPassword rt draw p) = true := by
    intro draw
    unfold verifyPassword hashPassword bcrypt.compare bcrypt.hash bcrypt.genSalt
    exact beq_self_eq_true _
  exact ⟨h draw₁, h draw₂⟩

/-! ## Properties of the Session Store read -/

theorem Home.readSession_missing (ls : Storage) (h : ls.getItem "user_data" = none) :
    Home.readSession ls = .ok .null := by
  rw [Home.readSession, h]
  rfl

/-- A slot holding the empty string reads as `null`. -/
theorem Home.readSession_empty (ls : Storage) (h : ls.getItem "user_data" = some []) :
    Home.readSession ls = .ok .null := by
  rw [Home.readSession, h]
  rfl

/-- A slot holding a non-empty string reads as the parse of that string. -/
theorem Home.readSession_content (ls : Storage) (content : JSString)
    (h : ls.getItem "user_data" = some content) (hne : content ≠ []) :
    Home.readSession ls = JSON.parse content := by
  rw [Home.readSession, h]
  cases content with
  | nil => exact absurd rfl hne
  | cons u t => rfl

/-- C5 as stated fails: with the text `{` in the `user_data` slot (not valid
JSON) the read throws a `SyntaxError` and so does the render of `Home`; and
with the text `42` (a JSON value that is not a session object) the read yields
a value that counts as a session, not as absent. -/
theorem C5_counterexample :
    Home.readSession (worldWithSlot (utf16 "\x7b")).localStorage =
      .error JSON.syntaxError ∧
    (∀ v, Home.readSession (worldWithSlot (utf16 "\x7b")).localStorage ≠ .ok v) ∧
    (∀ out, Home (worldWithSlot (utf16 "\x7b")) ≠ .ok out) ∧
    Home.readSession (worldWithSlot (utf16 "42")).localStorage =
      .ok (.number ⟨false, 42, 0⟩) ∧
    (JSValue.number ⟨false, 42, 0⟩).toBoolean = true := by
  have h : Home.readSession (worldWithSlot (utf16 "\x7b")).localStorage =
      .error JSON.syntaxError := rfl
  refine ⟨h, ?_, ?_, rfl, by decide⟩
  · intro v hv
    rw [h] at hv
    cases hv
  · intro out hout
    simp only [Home, h] at hout
    cases hout

/-- C5, amended: when the `user_data` slot is missing or holds the empty string
the read does not fail and yields `null`, which counts as absent; when the slot
holds any other string the read is `JSON.parse` of that string, so it throws
exactly when the string is not valid JSON and otherwise yields the parsed
value, which counts as absent exactly when it is falsy; and `Home` throws when
the read throws, redirects to `/login` and renders nothing when the value read
is falsy, and renders the page with any other value. -/
theorem C5_session_read {σ : Type} (w : World σ) :
    (w.localStorage.getItem "user_data" = none ∨ w.localStorage.getItem "user_data" = some [] →
      Home.readSession w.localStorage = .ok .null ∧ JSValue.null.toBoolean = false) ∧
    (∀ content, w.localStorage.getItem "user_data" = some content → content ≠ [] →
      Home.readSession w.localStorage = JSON.parse content) ∧
    (∀ e, Home.readSession w.localStorage = .error e → Home w = .error e) ∧
    (∀ v, Home.readSession w.localStorage = .ok v → v.toBoolean = false →
      Home w = .ok (.nothing, { w with navigations := w.navigations ++ [⟨"/login", true, 0⟩] })) ∧
    (∀ v, Home.readSession w.localStorage = .ok v → v.toBoolean = true →
      Home w = .ok (.page v, w)) := by
  refine ⟨?_, ?_, ?_, ?_, ?_⟩
  · intro h
    rcases h with h | h
    · exact ⟨Home.readSession_missing _ h, rfl⟩
    · exact ⟨Home.readSession_empty _ h, rfl⟩
  · intro content h hne
    exact Home.readSession_content _ content h hne
  · intro e he
    simp [Home, he]
  · intro v hv hb
    simp [Home, hv, hb]
  · intro v hv hb
    simp [Home, hv, hb]

/-- C5, amended, at concrete slots: a fresh client (slot missing) reads `null`;
a slot holding `null` reads as the parse of that text. -/
theorem C5_session_read_witness :
    (Home.readSession (freshWorld []).localStorage = .ok .null ∧
      JSValue.null.toBoolean = false) ∧
    Home.readSession (worldWithSlot (utf16 "null")).localStorage =
      JSON.parse (utf16 "null") :=
  ⟨(C5_session_read (freshWorld [])).1 (Or.inl rfl),
   (C5_session_read (worldWithSlot (utf16 "null"))).2.1 (utf16 "null") rfl (by decide)⟩

/-! ## Properties of the regular-expression matcher -/

/-- What a greedy quantifier on a one-code-unit atom accepts: some number of
leading code units within the bounds, all satisfying the atom, such that the
continuation succeeds on what follows. -/
theorem Regex.repeatMatcher_isSome (p : Nat → Bool) (c : MatchState → Option MatchState) :
    ∀ (s : JSString) (lo : Nat) (hi : Option Nat) (pos : Nat),
      (∀ h, hi = some h → lo ≤ h) →
      ((Regex.repeatMatcher p s lo hi pos c).isSome = true ↔
        ∃ n, lo ≤ n ∧ (∀ h, hi = some h → n ≤ h) ∧ n ≤ s.length ∧
          (∀ u ∈ s.take n, p u = true) ∧ (c ⟨pos + n, s.drop n⟩).isSome = true) := by
  intro s
  induction s with
  | nil =>
    intro lo hi pos hwf
    unfold Regex.repeatMatcher
    have hsame : (if Regex.exhausted hi = true then c ⟨pos, []⟩
        else if lo = 0 then c ⟨pos, []⟩ else none) = if lo = 0 then c ⟨pos, []⟩ else none := by
      by_cases hex : Regex.exhausted hi = true
      · have hhi : hi = some 0 := by
          cases hi with
          | none => cases hex
          | some h =>
            cases h with
            | zero => rfl
            | succ k => cases hex
        have hlo : lo = 0 := Nat.le_zero.mp (hwf 0 hhi)
        rw [if_pos hex, if_pos hlo]
      · rw [if_neg hex]
    rw [hsame]
    constructor
    · intro h
      by_cases hlo : lo = 0
      · rw [if_pos hlo] at h
        exact ⟨0, by omega, fun _ _ => Nat.zero_le _, Nat.le_refl _, by simp, by simpa using h⟩
      · rw [if_neg hlo] at h
        cases h
    · rintro ⟨n, hn, _, hlen, _, hc⟩
      have hn0 : n = 0 := by simpa using hlen
      subst hn0
      have hlo : lo = 0 := by omega
      rw [if_pos hlo]
      simpa using hc
  | cons u t ih =>
    intro lo hi pos hwf
    unfold Regex.repeatMatcher
    by_cases hex : Regex.exhausted hi = true
    · rw [if_pos hex]
      have hhi : hi = some 0 := by
        cases hi with
        | none => cases hex
        | some h =>
          cases h with
          | zero => rfl
          | succ k => cases hex
      have hlo : lo = 0 := Nat.le_zero.mp (hwf 0 hhi)
      constructor
      · intro h
        exact ⟨0, by omega, fun _ _ => Nat.zero_le _, Nat.zero_le _, by simp, by simpa using h⟩
      · rintro ⟨n, _, hmax, _, _, hc⟩
        have hn0 : n = 0 := Nat.le_zero.mp (hmax 0 hhi)
        subst hn0
        simpa using hc
    · rw [if_neg hex]
      have hpos : ∀ h, hi = some h → 0 < h := by
        intro h hh
        subst hh
        cases h with
        | zero => exact absurd rfl hex
        | succ k => exact Nat.succ_pos k
      have hwf' : ∀ h, hi.map (· - 1) = some h → lo - 1 ≤ h := by
        intro h hh
        cases hi with
        | none => cases hh
        | some k =>
          have hk := hwf k rfl
          simp only [Option.map_some', Option.some.injEq] at hh
          omega
      have IH := ih (lo - 1) (hi.map (· - 1)) (pos + 1) hwf'
      by_cases hp : p u = true
      · rw [if_pos hp]
        constructor
        · intro h
          cases hrec : Regex.repeatMatcher p t (lo - 1) (hi.map (· - 1)) (pos + 1) c with
          | some y =>
            have hsome : (Regex.repeatMatcher p t (lo - 1) (hi.map (· - 1)) (pos + 1) c).isSome
                = true := by rw [hrec]; rfl
            obtain ⟨m, hm, hmax, hlen, hall, hc⟩ := IH.mp hsome
            refine ⟨m + 1, by omega, ?_, by simpa using hlen, ?_, ?_⟩
            · intro h' hh'
              have := hmax (h' - 1) (by rw [hh']; rfl)
              have := hpos h' hh'
              omega
            · intro v hv
              rw [List.take_succ_cons, List.mem_cons] at hv
              rcases hv with hv | hv
              · rw [hv]; exact hp
              · exact hall v hv
            · rw [List.drop_succ_cons]
              have : pos + (m + 1) = pos + 1 + m := by omega
              rw [this]
              exact hc
          | none =>
            rw [hrec] at h
            by_cases hlo : lo = 0
            · simp only [if_pos hlo] at h
              exact ⟨0, by omega, fun _ _ => Nat.zero_le _, Nat.zero_le _, by simp,
                by simpa using h⟩
            · simp only [if_neg hlo] at h
              cases h
        · rintro ⟨n, hn, hmax, hlen, hall, hc⟩
          cases n with
          | zero =>
            have hlo : lo = 0 := by omega
            cases hrec : Regex.repeatMatcher p t (lo - 1) (hi.map (· - 1)) (pos + 1) c with
            | some y => rfl
            | none =>
              simp only [if_pos hlo]
              simpa using hc
          | succ m =>
            have hsome : (Regex.repeatMatcher p t (lo - 1) (hi.map (· - 1)) (pos + 1) c).isSome
                = true := by
              apply IH.mpr
              refine ⟨m, by omega, ?_, by simpa using hlen, ?_, ?_⟩
              · intro h' hh'
                cases hi with
                | none => cases hh'
                | some k =>
                  have hk := hmax k rfl
                  simp only [Option.map_some', Option.some.injEq] at hh'
                  omega
              · intro v hv
                apply hall v
                rw [List.take_succ_cons, List.mem_cons]
                exact Or.inr hv
              · rw [List.drop_succ_cons] at hc
                have : pos + (m + 1) = pos + 1 + m := by omega
                rw [this] at hc
                exact hc
            cases hrec : Regex.repeatMatcher p t (lo - 1) (hi.map (· - 1)) (pos + 1) c with
            | some y => rfl
            | none => rw [hrec] at hsome; cases hsome
      · rw [if_neg hp]
        constructor
        · intro h
          by_cases hlo : lo = 0
          · rw [if_pos hlo] at h
            exact ⟨0, by omega, fun _ _ => Nat.zero_le _, Nat.zero_le _, by simp,
              by simpa using h⟩
          · rw [if_neg hlo] at h
            cases h
        · rintro ⟨n, hn, _, _, hall, hc⟩
          cases n with
          | zero =>
            have hlo : lo = 0 := by omega
            rw [if_pos hlo]
            simpa using hc
          | succ m =>
            exact absurd (hall u (by rw [List.take_succ_cons]; exact List.mem_cons_self _ _)) hp
/-- The assertion `$` followed by nothing succeeds at the end of the input only. -/
theorem Regex.matcher_eol_isSome (x : MatchState) :
    (Regex.matcher .eol x some).isSome = true ↔ x.rest = [] := by
  unfold Regex.matcher
  by_cases h : x.rest = []
  · simp [h]
  · simp [h]

/-- The part `[^\s@]+$` accepts the non-empty strings of code units that are
neither white space nor `@`. -/
theorem emailRegex_tail_isSome (x : MatchState) :
    ((Regex.seq (.rep notSpaceOrAt 1 none) .eol).matcher x some).isSome = true ↔
      x.rest ≠ [] ∧ ∀ u ∈ x.rest, notSpaceOrAt u = true := by
  rw [Regex.matcher, Regex.matcher,
    Regex.repeatMatcher_isSome notSpaceOrAt _ x.rest 1 none x.pos (by intro h hh; cases hh)]
  constructor
  · rintro ⟨n, hn, _, hlen, hall, hc⟩
    have hdrop : List.drop n x.rest = [] := (Regex.matcher_eol_isSome _).mp hc
    have hge : x.rest.length ≤ n := List.drop_eq_nil_iff.mp hdrop
    have htake : List.take n x.rest = x.rest := List.take_of_length_le hge
    rw [htake] at hall
    refine ⟨?_, hall⟩
    intro hnil
    rw [hnil] at hlen
    simp at hlen
    omega
  · rintro ⟨hne, hall⟩
    refine ⟨x.rest.length, ?_, (by intro h hh; cases hh), Nat.le_refl _, ?_, ?_⟩
    · cases hx : x.rest with
      | nil => exact absurd hx hne
      | cons u t => simp
    · rw [List.take_length]; exact hall
    · exact (Regex.matcher_eol_isSome _).mpr (by simp)

/-- The part `\.[^\s@]+$`. -/
theorem emailRegex_dot_tail_isSome (x : MatchState) :
    ((Regex.seq (.unit (· == 46)) (.seq (.rep notSpaceOrAt 1 none) .eol)).matcher x some).isSome
        = true ↔
      ∃ tld, x.rest = 46 :: tld ∧ tld ≠ [] ∧ ∀ u ∈ tld, notSpaceOrAt u = true := by
  rw [Regex.matcher, Regex.matcher]
  cases hx : x.rest with
  | nil => simp
  | cons u t =>
    by_cases hu : u = 46
    · subst hu
      simp only [beq_self_eq_true, if_true]
      rw [emailRegex_tail_isSome]
      simp
    · have : (u == 46) = false := by simpa using hu
      simp [this, hu]

/-- The part `[^\s@]+\.[^\s@]+$`. -/
theorem emailRegex_domain_isSome (x : MatchState) :
    ((Regex.seq (.rep notSpaceOrAt 1 none)
        (.seq (.unit (· == 46)) (.seq (.rep notSpaceOrAt 1 none) .eol))).matcher x some).isSome
        = true ↔
      ∃ sub tld, x.rest = sub ++ 46 :: tld ∧ sub ≠ [] ∧ tld ≠ [] ∧
        (∀ u ∈ sub, notSpaceOrAt u = true) ∧ ∀ u ∈ tld, notSpaceOrAt u = true := by
  rw [Regex.matcher, Regex.matcher,
    Regex.repeatMatcher_isSome notSpaceOrAt _ x.rest 1 none x.pos (by intro h hh; cases hh)]
  constructor
  · rintro ⟨n, hn, _, hlen, hall, hc⟩
    obtain ⟨tld, hdrop, hne, htld⟩ := (emailRegex_dot_tail_isSome _).mp hc
    refine ⟨x.rest.take n, tld, ?_, ?_, hne, hall, htld⟩
    · have := List.take_append_drop n x.rest
      simp only at hdrop
      rw [hdrop] at this
      exact this.symm
    · intro hnil
      have hl := congrArg List.length hnil
      rw [List.length_take, Nat.min_eq_left hlen] at hl
      simp only [List.length_nil] at hl
      omega
  · rintro ⟨sub, tld, hx, hsub, htld, hasub, hatld⟩
    refine ⟨sub.length, ?_, (by intro h hh; cases hh), ?_, ?_, ?_⟩
    · cases sub with
      | nil => exact absurd rfl hsub
      | cons u t => simp
    · rw [hx]; simp
    · rw [hx, List.take_left]; exact hasub
    · apply (emailRegex_dot_tail_isSome _).mpr
      refine ⟨tld, ?_, htld, hatld⟩
      simp only
      rw [hx, List.drop_left]

/-- The part `@[^\s@]+\.[^\s@]+$`. -/
theorem emailRegex_at_domain_isSome (x : MatchState) :
    ((Regex.seq (.unit (· == 64)) (.seq (.rep notSpaceOrAt 1 none)
        (.seq (.unit (· == 46)) (.seq (.rep notSpaceOrAt 1 none) .eol)))).matcher x some).isSome
        = true ↔
      ∃ sub tld, x.rest = 64 :: (sub ++ 46 :: tld) ∧ sub ≠ [] ∧ tld ≠ [] ∧
        (∀ u ∈ sub, notSpaceOrAt u = true) ∧ ∀ u ∈ tld, notSpaceOrAt u = true := by
  rw [Regex.matcher, Regex.matcher]
  cases hx : x.rest with
  | nil => simp
  | cons u t =>
    by_cases hu : u = 64
    · subst hu
      simp only [beq_self_eq_true, if_true]
      rw [emailRegex_domain_isSome]
      simp
    · have : (u == 64) = false := by simpa using hu
      simp [this, hu]

/-- The part `[^\s@]+@[^\s@]+\.[^\s@]+$`. -/
theorem emailRegex_body_isSome (x : MatchState) :
    ((Regex.seq (.rep notSpaceOrAt 1 none) (.seq (.unit (· == 64)) (.seq (.rep notSpaceOrAt 1 none)
        (.seq (.unit (· == 46)) (.seq (.rep notSpaceOrAt 1 none) .eol))))).matcher x some).isSome
        = true ↔
      ∃ loc sub tld, x.rest = loc ++ 64 :: (sub ++ 46 :: tld) ∧ loc ≠ [] ∧ sub ≠ [] ∧ tld ≠ [] ∧
        (∀ u ∈ loc, notSpaceOrAt u = true) ∧ (∀ u ∈ sub, notSpaceOrAt u = true) ∧
        ∀ u ∈ tld, notSpaceOrAt u = true := by
  rw [Regex.matcher, Regex.matcher,
    Regex.repeatMatcher_isSome notSpaceOrAt _ x.rest 1 none x.pos (by intro h hh; cases hh)]
  constructor
  · rintro ⟨n, hn, _, hlen, hall, hc⟩
    obtain ⟨sub, tld, hdrop, hsub, htld, hasub, hatld⟩ := (emailRegex_at_domain_isSome _).mp hc
    refine ⟨x.rest.take n, sub, tld, ?_, ?_, hsub, htld, hall, hasub, hatld⟩
    · have := List.take_append_drop n x.rest
      simp only at hdrop
      rw [hdrop] at this
      exact this.symm
    · intro hnil
      have hl := congrArg List.length hnil
      rw [List.length_take, Nat.min_eq_left hlen] at hl
      simp only [List.length_nil] at hl
      omega
  · rintro ⟨loc, sub, tld, hx, hloc, hsub, htld, haloc, hasub, hatld⟩
    refine ⟨loc.length, ?_, (by intro h hh; cases hh), ?_, ?_, ?_⟩
    · cases loc with
      | nil => exact absurd rfl hloc
      | cons u t => simp
    · rw [hx]; simp
    · rw [hx, List.take_left]; exact haloc
    · apply (emailRegex_at_domain_isSome _).mpr
      refine ⟨sub, tld, ?_, hsub, htld, hasub, hatld⟩
      simp only
      rw [hx, List.drop_left]

/-- The assertion `(?=.{3,255}$)`, tried at the start of the string. -/
theorem emailRegex_length_isSome (x : MatchState) :
    ((Regex.seq (.rep dot 3 (some 255)) .eol).matcher x some).isSome = true ↔
      3 ≤ x.rest.length ∧ x.rest.length ≤ 255 ∧ ∀ u ∈ x.rest, dot u = true := by
  rw [Regex.matcher, Regex.matcher,
    Regex.repeatMatcher_isSome dot _ x.rest 3 (some 255) x.pos
      (by intro h hh; cases hh; decide)]
  constructor
  · rintro ⟨n, hn, hmax, hlen, hall, hc⟩
    have hdrop : List.drop n x.rest = [] := (Regex.matcher_eol_isSome _).mp hc
    have hge : x.rest.length ≤ n := List.drop_eq_nil_iff.mp hdrop
    have htake : List.take n x.rest = x.rest := List.take_of_length_le hge
    rw [htake] at hall
    have := hmax 255 rfl
    exact ⟨by omega, by omega, hall⟩
  · rintro ⟨h3, h255, hall⟩
    refine ⟨x.rest.length, h3, ?_, Nat.le_refl _, ?_, ?_⟩
    · intro h hh
      cases hh
      exact h255
    · rw [List.take_length]; exact hall
    · exact (Regex.matcher_eol_isSome _).mpr (by simp)

/-- A code unit matched by `[^\s@]` is matched by `.`. -/
theorem dot_of_notSpaceOrAt (u : Nat) (h : notSpaceOrAt u = true) : dot u = true := by
  unfold notSpaceOrAt isWhiteSpace at h
  unfold dot isLineTerminator
  simp only [Bool.not_eq_true', Bool.or_eq_false_iff, beq_eq_false_iff_ne] at h
  simp only [Bool.not_eq_true', Bool.or_eq_false_iff, beq_eq_false_iff_ne]
  tauto

/-- The pattern is anchored: no match starts after index 0. -/
theorem emailRegex_matchAt_later (t : JSString) (pos : Nat) (hpos : 0 < pos) :
    emailRegex.matchAt ⟨pos, t⟩ = none := by
  have : pos ≠ 0 := by omega
  simp [Regex.matchAt, emailRegex, Regex.matcher, this]

/-- The pattern is anchored: the search finds no match from an index after 0. -/
theorem emailRegex_search_later (t : JSString) :
    ∀ pos, 0 < pos → Regex.search emailRegex pos t = none := by
  induction t with
  | nil =>
    intro pos hpos
    rw [Regex.search, emailRegex_matchAt_later [] pos hpos]
  | cons u t ih =>
    intro pos hpos
    rw [Regex.search, emailRegex_matchAt_later (u :: t) pos hpos]
    exact ih (pos + 1) (by omega)

/-- `emailRegex.test` is one match attempt at index 0. -/
theorem emailRegex_test_eq (s : JSString) :
    emailRegex.test s = (emailRegex.matchAt ⟨0, s⟩).isSome := by
  unfold Regex.test
  cases s with
  | nil => rfl
  | cons u t =>
    unfold Regex.search
    cases h : emailRegex.matchAt ⟨0, u :: t⟩ with
    | some y => rfl
    | none => simp [emailRegex_search_later t 1 (by omega)]

/-- What `emailRegex` accepts, read off the matcher. -/
theorem emailRegex_test_iff (s : JSString) :
    emailRegex.test s = true ↔
      3 ≤ s.length ∧ s.length ≤ 255 ∧
      ∃ loc sub tld, s = loc ++ 64 :: (sub ++ 46 :: tld) ∧ loc ≠ [] ∧ sub ≠ [] ∧ tld ≠ [] ∧
        (∀ u ∈ loc, notSpaceOrAt u = true) ∧ (∀ u ∈ sub, notSpaceOrAt u = true) ∧
        ∀ u ∈ tld, notSpaceOrAt u = true := by
  rw [emailRegex_test_eq]
  unfold Regex.matchAt emailRegex
  rw [Regex.matcher, Regex.matcher, Regex.matcher, Regex.matcher]
  simp only [if_true]
  have hbody := emailRegex_body_isSome ⟨0, s⟩
  have hlen := emailRegex_length_isSome ⟨0, s⟩
  simp only at hbody hlen
  constructor
  · intro h
    cases hl : (Regex.seq (.rep dot 3 (some 255)) .eol).matcher ⟨0, s⟩ some with
    | none => rw [hl] at h; cases h
    | some y =>
      rw [hl] at h
      have hl' := hlen.mp (by rw [hl]; rfl)
      exact ⟨hl'.1, hl'.2.1, hbody.mp h⟩
  · rintro ⟨h3, h255, loc, sub, tld, hs, hloc, hsub, htld, haloc, hasub, hatld⟩
    have hall : ∀ u ∈ s, dot u = true := by
      intro u hu
      rw [hs] at hu
      simp only [List.mem_append, List.mem_cons] at hu
      rcases hu with hu | hu | hu | hu | hu
      · exact dot_of_notSpaceOrAt u (haloc u hu)
      · subst hu; decide
      · exact dot_of_notSpaceOrAt u (hasub u hu)
      · subst hu; decide
      · exact dot_of_notSpaceOrAt u (hatld u hu)
    have hl' := hlen.mpr ⟨h3, h255, hall⟩
    cases hl : (Regex.seq (.rep dot 3 (some 255)) .eol).matcher ⟨0, s⟩ some with
    | none => rw [hl] at hl'; cases hl'
    | some y =>
      simp only []
      exact hbody.mpr ⟨loc, sub, tld, hs, hloc, hsub, htld, haloc, hasub, hatld⟩

/-! ## Properties of the email check -/

theorem notSpaceOrAt_iff (u : Nat) :
    notSpaceOrAt u = true ↔ isWhiteSpace u = false ∧ u ≠ 64 := by
  unfold notSpaceOrAt
  simp

/-- The strings `emailRegex` accepts are those of the shape `EmailShape`. -/
theorem emailRegex_test_iff_shape (s : JSString) : emailRegex.test s = true ↔ EmailShape s := by
  rw [emailRegex_test_iff]
  unfold EmailShape
  constructor
  · rintro ⟨h3, h255, loc, sub, tld, hs, hloc, hsub, htld, haloc, hasub, hatld⟩
    refine ⟨h3, h255, ?_, loc, sub ++ 46 :: tld, hs, hloc, ?_, ?_, sub, tld, rfl, hsub, htld⟩
    · intro u hu
      rw [hs] at hu
      simp only [List.mem_append, List.mem_cons] at hu
      rcases hu with hu | hu | hu | hu | hu
      · exact ((notSpaceOrAt_iff u).mp (haloc u hu)).1
      · subst hu; decide
      · exact ((notSpaceOrAt_iff u).mp (hasub u hu)).1
      · subst hu; decide
      · exact ((notSpaceOrAt_iff u).mp (hatld u hu)).1
    · intro h
      exact ((notSpaceOrAt_iff 64).mp (haloc 64 h)).2 rfl
    · intro h
      simp only [List.mem_append, List.mem_cons] at h
      rcases h with h | h | h
      · exact ((notSpaceOrAt_iff 64).mp (hasub 64 h)).2 rfl
      · omega
      · exact ((notSpaceOrAt_iff 64).mp (hatld 64 h)).2 rfl
  · rintro ⟨h3, h255, hws, loc, dom, hs, hloc, hnl, hnd, sub, tld, hdom, hsub, htld⟩
    subst hdom
    refine ⟨h3, h255, loc, sub, tld, hs, hloc, hsub, htld, ?_, ?_, ?_⟩
    · intro u hu
      refine (notSpaceOrAt_iff u).mpr ⟨hws u (by rw [hs]; simp [hu]), ?_⟩
      intro h
      subst h
      exact hnl hu
    · intro u hu
      refine (notSpaceOrAt_iff u).mpr ⟨hws u (by rw [hs]; simp [hu]), ?_⟩
      intro h
      subst h
      exact hnd (by simp [hu])
    · intro u hu
      refine (notSpaceOrAt_iff u).mpr ⟨hws u (by rw [hs]; simp [hu]), ?_⟩
      intro h
      subst h
      exact hnd (by simp [hu])

/-- C7 as stated fails: the normalised email `a@.b` has length 4, the non-empty
local part `a`, the non-empty domain `.b` after the `@`, no white space and a
dot in the domain, yet the pattern rejects it and registration reports the
invalid-email error. -/
theorem C7_counterexample :
    SpecEmailShape (asciiRuntime.toLowerCase (trim (utf16 "a@.b"))) ∧
    emailRegex.test (asciiRuntime.toLowerCase (trim (utf16 "a@.b"))) = false ∧
    (Register.handleSubmit asciiRuntime memoryStore []
        (Register.form "Ada Lovelace" "a@.b" "secret1" "secret1") (freshWorld [])).1.err =
      "Please enter a valid email." := by
  refine ⟨⟨by decide, by decide, by decide, [97], [46, 98], by decide, by decide, by decide,
    by decide⟩, by decide, by decide⟩

/-- C7, amended: the registration email check accepts an email if and only if
its trimmed, lower-cased form has between 3 and 255 code units, contains no
white space, contains exactly one `@` with a non-empty local part before it,
and has after the `@` a domain containing a dot that is neither the first nor
the last code unit of the domain; every other email is rejected with the
invalid-email error. -/
theorem C7_email_check {σ : Type} (rt : Runtime) (fs : Firestore σ) (draw : List Nat)
    (st : Register.State) (w : World σ) :
    (emailRegex.test (rt.toLowerCase (trim st.email)) = true ↔
      EmailShape (rt.toLowerCase (trim st.email))) ∧
    (¬ EmailShape (rt.toLowerCase (trim st.email)) →
      (Register.handleSubmit rt fs draw st w).1.err = "Please enter a valid email.") := by
  refine ⟨emailRegex_test_iff_shape _, ?_⟩
  intro hshape
  have hfalse : emailRegex.test (rt.toLowerCase (trim st.email)) = false := by
    cases h : emailRegex.test (rt.toLowerCase (trim st.email)) with
    | false => rfl
    | true => exact absurd ((emailRegex_test_iff_shape _).mp h) hshape
  rw [Register.handleSubmit_invalid_email rt fs draw st w hfalse]

/-- C7, amended, at concrete emails: ` Ada@X.com ` is accepted and its
normalised form has the shape; `a@b.` has not the shape and is rejected with
the invalid-email error. -/
theorem C7_email_check_witness :
    EmailShape (asciiRuntime.toLowerCase (trim (utf16 " Ada@X.com "))) ∧
    (Register.handleSubmit asciiRuntime memoryStore []
        (Register.form "Ada Lovelace" "a@b." "secret1" "secret1") (freshWorld [])).1.err =
      "Please enter a valid email." :=
  ⟨(C7_email_check asciiRuntime memoryStore []
      (Register.form "Ada Lovelace" " Ada@X.com " "secret1" "secret1") (freshWorld [])).1.mp
      (by decide),
   (C7_email_check asciiRuntime memoryStore []
      (Register.form "Ada Lovelace" "a@b." "secret1" "secret1") (freshWorld [])).2
      (fun h => absurd ((C7_email_check asciiRuntime memoryStore []
        (Register.form "Ada Lovelace" "a@b." "secret1" "secret1") (freshWorld [])).1.mpr h)
        (by decide))⟩

/-! ## Properties of `trim` and `split` -/

/-- With no upper bound and nothing to do afterwards, a greedy quantifier takes
the longest run of matching code units, and fails if that run is shorter than
the lower bound. -/
theorem Regex.repeatMatcher_greedy (p : Nat → Bool) :
    ∀ (s : JSString) (lo pos : Nat),
      Regex.repeatMatcher p s lo none pos some =
        if lo ≤ (s.takeWhile p).length then
          some ⟨pos + (s.takeWhile p).length, s.dropWhile p⟩
        else none := by
  intro s
  induction s with
  | nil =>
    intro lo pos
    unfold Regex.repeatMatcher
    have hex : Regex.exhausted none = false := rfl
    rw [hex]
    simp only [Bool.false_eq_true, if_false]
    by_cases hlo : lo = 0
    · simp [hlo]
    · have : ¬ lo ≤ 0 := by omega
      simp [hlo]
  | cons u t ih =>
    intro lo pos
    unfold Regex.repeatMatcher
    have hex : Regex.exhausted none = false := rfl
    rw [hex]
    simp only [Bool.false_eq_true, if_false, Option.map_none']
    by_cases hp : p u = true
    · rw [if_pos hp, ih (lo - 1) (pos + 1), List.takeWhile_cons_of_pos hp,
        List.dropWhile_cons_of_pos hp, List.length_cons]
      by_cases hle : lo - 1 ≤ (List.takeWhile p t).length
      · have hle' : lo ≤ (List.takeWhile p t).length + 1 := by omega
        rw [if_pos hle, if_pos hle']
        have : pos + 1 + (List.takeWhile p t).length = pos + ((List.takeWhile p t).length + 1) := by
          omega
        rw [this]
      · have hle' : ¬ lo ≤ (List.takeWhile p t).length + 1 := by omega
        have hlo : lo ≠ 0 := by omega
        rw [if_neg hle, if_neg hle']
        simp [hlo]
    · rw [if_neg hp, List.takeWhile_cons_of_neg hp, List.dropWhile_cons_of_neg hp]
      by_cases hlo : lo = 0
      · simp [hlo]
      · simp [hlo]

/-- The separator `\s+` matches at a white-space code unit, up to the end of
the run of white space. -/
theorem whiteSpaceRun_matchAt_space (pos u : Nat) (t : JSString) (hu : isWhiteSpace u = true) :
    whiteSpaceRun.matchAt ⟨pos, u :: t⟩ =
      some ⟨pos + ((t.takeWhile isWhiteSpace).length + 1), t.dropWhile isWhiteSpace⟩ := by
  unfold Regex.matchAt whiteSpaceRun
  rw [Regex.matcher, Regex.repeatMatcher_greedy, List.takeWhile_cons_of_pos hu,
    List.dropWhile_cons_of_pos hu, List.length_cons, if_pos (by omega)]

/-- The separator `\s+` does not match at a code unit that is not white space,
nor at the end of the string. -/
theorem whiteSpaceRun_matchAt_other (pos u : Nat) (t : JSString) (hu : isWhiteSpace u = false) :
    whiteSpaceRun.matchAt ⟨pos, u :: t⟩ = none := by
  unfold Regex.matchAt whiteSpaceRun
  have hu' : ¬ isWhiteSpace u = true := by simp [hu]
  rw [Regex.matcher, Regex.repeatMatcher_greedy, List.takeWhile_cons_of_neg hu']
  simp

/-- Leading white space carries no token. -/
theorem tokensFrom_dropWhile (t : JSString) :
    tokensFrom [] (t.dropWhile isWhiteSpace) = tokensFrom [] t := by
  induction t with
  | nil => rfl
  | cons u t ih =>
    by_cases hu : isWhiteSpace u = true
    · rw [List.dropWhile_cons_of_pos hu, ih]
      conv_rhs => rw [tokensFrom]
      simp [hu]
    · rw [List.dropWhile_cons_of_neg hu]

/-- White space alone only closes the run in progress. -/
theorem tokensFrom_spaces (w : JSString) (hw : ∀ x ∈ w, isWhiteSpace x = true) :
    ∀ cur, tokensFrom cur w = if cur = [] then [] else [cur] := by
  induction w with
  | nil => intro cur; rfl
  | cons x w ih =>
    intro cur
    have hx : isWhiteSpace x = true := hw x (List.mem_cons_self _ _)
    have ih' := ih (fun y hy => hw y (List.mem_cons_of_mem _ hy)) []
    rw [tokensFrom, if_pos hx, ih']
    simp

/-- Trailing white space carries no token. -/
theorem tokensFrom_append_spaces (w : JSString) (hw : ∀ x ∈ w, isWhiteSpace x = true) :
    ∀ (l cur : JSString), tokensFrom cur (l ++ w) = tokensFrom cur l := by
  intro l
  induction l with
  | nil =>
    intro cur
    rw [List.nil_append, tokensFrom_spaces w hw cur]
    rfl
  | cons u t ih =>
    intro cur
    rw [List.cons_append, tokensFrom, tokensFrom, ih, ih]

/-- A run in progress ends up as a token. -/
theorem tokensFrom_ne_nil (rest : JSString) :
    ∀ cur, cur ≠ [] → tokensFrom cur rest ≠ [] := by
  induction rest with
  | nil =>
    intro cur hcur
    rw [tokensFrom, if_neg hcur]
    simp
  | cons u t ih =>
    intro cur hcur
    rw [tokensFrom]
    by_cases hu : isWhiteSpace u = true
    · rw [if_pos hu, if_neg hcur]
      simp
    · rw [if_neg hu]
      exact ih _ (by simp)

/-- What `rdropWhile` removes is a suffix of elements satisfying the test. -/
theorem rdropWhile_append_rest (p : Nat → Bool) (l : JSString) :
    ∃ w, l = l.rdropWhile p ++ w ∧ ∀ x ∈ w, p x = true := by
  refine ⟨(l.reverse.takeWhile p).reverse, ?_, ?_⟩
  · unfold List.rdropWhile
    rw [← List.reverse_append, List.takeWhile_append_dropWhile, List.reverse_reverse]
  · intro x hx
    rw [List.mem_reverse] at hx
    exact List.mem_takeWhile_imp hx

/-- The builtin `trim` leaves no white space at the end. -/
theorem trim_noTrailingSpace (s : JSString) : NoTrailingSpace (trim s) := by
  intro init z h
  unfold trim at h
  have hne : List.rdropWhile isWhiteSpace (List.dropWhile isWhiteSpace s) ≠ [] := by
    rw [h]; simp
  have := List.rdropWhile_last_not isWhiteSpace (List.dropWhile isWhiteSpace s) hne
  simp only [h, List.getLast_append_singleton] at this
  simpa using this

/-- The builtin `trim` leaves no white space at the start. -/
theorem trim_head (s : JSString) (u : Nat) (t : JSString) (h : trim s = u :: t) :
    isWhiteSpace u = false := by
  obtain ⟨w, hw, _⟩ := rdropWhile_append_rest isWhiteSpace (s.dropWhile isWhiteSpace)
  unfold trim at h
  rw [h] at hw
  have hhead := List.head?_dropWhile_not isWhiteSpace s
  rw [hw] at hhead
  simpa using hhead

/-- The tokens of a string are those of the trimmed string. -/
theorem tokens_trim (s : JSString) : tokens (trim s) = tokens s := by
  obtain ⟨w, hw, hall⟩ := rdropWhile_append_rest isWhiteSpace (s.dropWhile isWhiteSpace)
  unfold tokens trim
  rw [← tokensFrom_dropWhile s]
  conv_rhs => rw [hw]
  rw [tokensFrom_append_spaces w hall]

/-- A suffix of a string that does not end in white space does not either. -/
theorem NoTrailingSpace.of_append (a b : JSString) (h : NoTrailingSpace (a ++ b)) :
    NoTrailingSpace b := by
  intro init z hb
  exact h (a ++ init) z (by rw [hb, List.append_assoc])

/-- On a string that does not end in white space, and from a state in which
the piece in progress is non-empty or the next code unit is not white space,
the split loop for `\s+` yields the runs of non-whitespace code units. -/
theorem splitLoop_whiteSpaceRun :
    ∀ (fuel : Nat) (piece : JSString) (pos : Nat) (rest : JSString),
      rest.length < fuel → NoTrailingSpace rest →
      (piece ≠ [] ∨ ∃ u t, rest = u :: t ∧ isWhiteSpace u = false) →
      Regex.splitLoop whiteSpaceRun fuel piece ⟨pos, rest⟩ = tokensFrom piece rest := by
  intro fuel
  induction fuel with
  | zero => intro piece pos rest h; exact absurd h (Nat.not_lt_zero _)
  | succ fuel ih =>
    intro piece pos rest hfuel hend hstart
    cases rest with
    | nil =>
      have hpiece : piece ≠ [] := by
        rcases hstart with h | ⟨u, t, h, _⟩
        · exact h
        · cases h
      rw [Regex.splitLoop, tokensFrom, if_neg hpiece]
    | cons u t =>
      rw [Regex.splitLoop]
      simp only
      have hlen : t.length < fuel := by simpa using hfuel
      by_cases hu : isWhiteSpace u = true
      · have hpiece : piece ≠ [] := by
          rcases hstart with h | ⟨u', t', h, hu'⟩
          · exact h
          · cases h
            rw [hu] at hu'
            cases hu'
        rw [whiteSpaceRun_matchAt_space pos u t hu]
        simp only
        have hne : ¬ pos + ((List.takeWhile isWhiteSpace t).length + 1) = pos - piece.length := by
          omega
        rw [if_neg hne, tokensFrom, if_pos hu, if_neg hpiece, ← tokensFrom_dropWhile t]
        congr 1
        obtain ⟨a, ha⟩ := List.dropWhile_suffix isWhiteSpace (l := t)
        have hend' : NoTrailingSpace (List.dropWhile isWhiteSpace t) := by
          apply NoTrailingSpace.of_append (u :: a)
          rw [List.cons_append, ha]
          exact hend
        apply ih
        · exact Nat.lt_of_le_of_lt (List.dropWhile_sublist isWhiteSpace).length_le hlen
        · exact hend'
        · right
          cases hd : List.dropWhile isWhiteSpace t with
          | nil =>
            exfalso
            have hall := List.dropWhile_eq_nil_iff.mp hd
            rcases List.eq_nil_or_concat t with ht | ⟨init, z, ht⟩
            · subst ht
              have := hend [] u rfl
              rw [hu] at this
              cases this
            · rw [List.concat_eq_append] at ht
              have hz := hend (u :: init) z (by rw [ht]; rfl)
              have := hall z (by rw [ht]; simp)
              rw [hz] at this
              cases this
          | cons v t' =>
            refine ⟨v, t', rfl, ?_⟩
            have hhead := List.head?_dropWhile_not isWhiteSpace t
            rw [hd] at hhead
            simpa using hhead
      · have hu' : isWhiteSpace u = false := by simpa using hu
        rw [whiteSpaceRun_matchAt_other pos u t hu']
        simp only
        rw [tokensFrom, if_neg hu]
        apply ih
        · exact hlen
        · exact NoTrailingSpace.of_append [u] t hend
        · left; simp

/-- Splitting a trimmed string on `\s+` gives its tokens, or the single empty
string when there is no token. -/
theorem split_trim (s : JSString) :
    split whiteSpaceRun (trim s) = if tokens s = [] then [[]] else tokens s := by
  rw [← tokens_trim s]
  cases h : trim s with
  | nil => rfl
  | cons u t =>
    have hu := trim_head s u t h
    have hend : NoTrailingSpace (u :: t) := by rw [← h]; exact trim_noTrailingSpace s
    unfold split
    simp only
    rw [splitLoop_whiteSpaceRun _ [] 0 (u :: t) (by omega) hend (Or.inr ⟨u, t, rfl, hu⟩)]
    have hne : tokens (u :: t) ≠ [] := by
      unfold tokens
      rw [tokensFrom, hu]
      simp only [Bool.false_eq_true, if_false]
      exact tokensFrom_ne_nil t _ (by simp)
    rw [if_neg hne]
    rfl

/-! ## Properties of the stored record -/

/-- The record an insert of the registration flow carries. -/
theorem Register.made_addDoc {σ : Type} (rt : Runtime) (fs : Firestore σ) (draw : List Nat)
    (st : Register.State) (w : World σ) (made : List Call)
    (hmade : (Register.handleSubmit rt fs draw st w).2.calls = w.calls ++ made)
    (user : UserData) (hu : Call.addDoc user ∈ made) :
    user = ⟨orEmpty (split whiteSpaceRun (trim st.fullName)).head?,
      join (utf16 " ") ((split whiteSpaceRun (trim st.fullName)).drop 1),
      trim st.email, rt.toLowerCase (trim st.email), hashPassword rt draw st.pw,
      .serverTimestamp⟩ := by
  by_cases h : emailRegex.test (rt.toLowerCase (trim st.email)) = true
  · by_cases h6 : st.pw.length < 6
    · rw [Register.handleSubmit_short_password rt fs draw st w h h6] at hmade
      have : made = [] := by simpa using hmade
      subst this
      cases hu
    · by_cases heq : st.pw = st.confirm
      · rw [Register.handleSubmit_valid rt fs draw st w h h6 heq] at hmade
        rcases hg : fs.getDocs (rt.toLowerCase (trim st.email)) w.db with ⟨r, db₁⟩
        cases r with
        | error e =>
          rw [Register.tryBlock_lookup_error rt fs draw st _ _ _ w e db₁ hg] at hmade
          have : made = [Call.getDocs (rt.toLowerCase (trim st.email))] := by
            simpa using hmade.symm
          subst this
          simp at hu
        | ok snap =>
          by_cases hs : snap = []
          · subst hs
            rw [Register.tryBlock_free rt fs draw st _ _ _ w db₁ hg] at hmade
            rcases ha : fs.addDoc ⟨orEmpty (split whiteSpaceRun (trim st.fullName)).head?,
              join (utf16 " ") ((split whiteSpaceRun (trim st.fullName)).drop 1),
              trim st.email, rt.toLowerCase (trim st.email), hashPassword rt draw st.pw,
              .serverTimestamp⟩ db₁ with ⟨r₂, db₂⟩
            rw [ha] at hmade
            cases r₂ with
            | error e =>
              have hm := List.append_cancel_left hmade
              rw [← hm] at hu
              simpa using hu
            | ok id =>
              have hm := List.append_cancel_left hmade
              rw [← hm] at hu
              simpa using hu
          · rw [Register.tryBlock_found rt fs draw st _ _ _ w snap db₁ hg hs] at hmade
            have : made = [Call.getDocs (rt.toLowerCase (trim st.email))] := by
              simpa using hmade.symm
            subst this
            simp at hu
      · rw [Register.handleSubmit_mismatch rt fs draw st w h h6 heq] at hmade
        have : made = [] := by simpa using hmade
        subst this
        cases hu
  · rw [Register.handleSubmit_invalid_email rt fs draw st w (by simpa using h)] at hmade
    have : made = [] := by simpa using hmade
    subst this
    cases hu

/-- C10: in every record the registration flow inserts, `firstName` is the
first token of `fullName` (the empty string when there is no token) and
`lastName` is the remaining tokens joined by one space (the empty string when
there are fewer than two tokens), the tokens being the maximal runs of
non-whitespace code units of `fullName` in order. -/
theorem C10_name_tokens {σ : Type} (rt : Runtime) (fs : Firestore σ) (draw : List Nat)
    (st : Register.State) (w : World σ) (made : List Call)
    (hmade : (Register.handleSubmit rt fs draw st w).2.calls = w.calls ++ made)
    (user : UserData) (hu : Call.addDoc user ∈ made) :
    user.firstName = (tokens st.fullName).head?.getD [] ∧
    user.lastName = join [32] ((tokens st.fullName).drop 1) ∧
    (tokens st.fullName = [] → user.firstName = []) ∧
    ((tokens st.fullName).length < 2 → user.lastName = []) := by
  have hrec := Register.made_addDoc rt fs draw st w made hmade user hu
  have hsp : utf16 " " = [32] := by decide
  have hfirst : user.firstName = (tokens st.fullName).head?.getD [] := by
    rw [hrec]
    simp only
    rw [split_trim]
    cases ht : tokens st.fullName with
    | nil => rfl
    | cons a l => rfl
  have hlast : user.lastName = join [32] ((tokens st.fullName).drop 1) := by
    rw [hrec]
    simp only
    rw [split_trim, hsp]
    cases ht : tokens st.fullName with
    | nil => rfl
    | cons a l => rfl
  refine ⟨hfirst, hlast, ?_, ?_⟩
  · intro ht
    rw [hfirst, ht]
    rfl
  · intro ht
    rw [hlast]
    cases hl : tokens st.fullName with
    | nil => rfl
    | cons a l =>
      cases l with
      | nil => rfl
      | cons b l' =>
        rw [hl] at ht
        simp only [List.length_cons] at ht
        omega

/-- C10 at the form of the specification's scenario: `Ada Lovelace` is stored
as `Ada` and `Lovelace`. -/
theorem C10_name_tokens_witness :
    utf16 "Ada" =
      (tokens (Register.form "Ada Lovelace" "Ada@X.com" "secret1" "secret1").fullName).head?.getD
        [] ∧
    utf16 "Lovelace" =
      join [32]
        ((tokens (Register.form "Ada Lovelace" "Ada@X.com" "secret1" "secret1").fullName).drop 1) :=
  have h := C10_name_tokens asciiRuntime memoryStore [7]
    (Register.form "Ada Lovelace" "Ada@X.com" "secret1" "secret1") (freshWorld [])
    [Call.getDocs (utf16 "ada@x.com"), Call.hashPassword (utf16 "secret1"),
      Call.addDoc ⟨utf16 "Ada", utf16 "Lovelace", utf16 "Ada@X.com", utf16 "ada@x.com",
        hashPassword asciiRuntime [7] (utf16 "secret1"), .serverTimestamp⟩]
    (by decide)
    ⟨utf16 "Ada", utf16 "Lovelace", utf16 "Ada@X.com", utf16 "ada@x.com",
      hashPassword asciiRuntime [7] (utf16 "secret1"), .serverTimestamp⟩
    (by decide)
  ⟨h.1, h.2.1⟩

/-! ## Properties of the email key -/

theorem dropWhile_append_of_all (p : Nat → Bool) (pre s : JSString)
    (hpre : ∀ u ∈ pre, p u = true) : (pre ++ s).dropWhile p = s.dropWhile p := by
  induction pre with
  | nil => rfl
  | cons u t ih =>
    rw [List.cons_append, List.dropWhile_cons_of_pos (hpre u (List.mem_cons_self _ _))]
    exact ih (fun v hv => hpre v (List.mem_cons_of_mem _ hv))

/-- Elements satisfying the test, put behind, are dropped by `rdropWhile`. -/
theorem rdropWhile_append_of_all (p : Nat → Bool) (s post : JSString)
    (hpost : ∀ u ∈ post, p u = true) : (s ++ post).rdropWhile p = s.rdropWhile p := by
  unfold List.rdropWhile
  rw [List.reverse_append, dropWhile_append_of_all p post.reverse s.reverse
    (fun u hu => hpost u (List.mem_reverse.mp hu))]

/-- White space added around a string does not change what `trim` returns. -/
theorem trim_surround (pre s post : JSString) (hpre : AllSpace pre) (hpost : AllSpace post) :
    trim (pre ++ s ++ post) = trim s := by
  unfold trim
  rw [List.append_assoc, dropWhile_append_of_all isWhiteSpace pre (s ++ post) hpre]
  by_cases hs : ∀ u ∈ s, isWhiteSpace u = true
  · rw [dropWhile_append_of_all isWhiteSpace s post hs, List.dropWhile_eq_nil_iff.mpr hpost,
      List.dropWhile_eq_nil_iff.mpr hs]
  · have hne : s.dropWhile isWhiteSpace ≠ [] := by
      intro h
      exact hs (List.dropWhile_eq_nil_iff.mp h)
    have happ : (s ++ post).dropWhile isWhiteSpace = s.dropWhile isWhiteSpace ++ post := by
      clear hpost hpre
      induction s with
      | nil => exact absurd rfl hne
      | cons u t ih =>
        by_cases hu : isWhiteSpace u = true
        · rw [List.cons_append, List.dropWhile_cons_of_pos hu, List.dropWhile_cons_of_pos hu]
          rw [List.dropWhile_cons_of_pos hu] at hne
          apply ih
          · intro hall
            apply hs
            intro v hv
            rcases List.mem_cons.mp hv with hv | hv
            · rw [hv]; exact hu
            · exact hall v hv
          · exact hne
        · rw [List.cons_append, List.dropWhile_cons_of_neg hu, List.dropWhile_cons_of_neg hu]
          rfl
    rw [happ, rdropWhile_append_of_all isWhiteSpace _ post hpost]

/-- A code unit that is the same letter as a Basic Latin one is Basic Latin. -/
theorem sameLetter_lt (x y : Nat) (h : SameLetter x y) (hy : y < 128) : x < 128 := by
  unfold SameLetter asciiLowerUnit at h
  split_ifs at h <;> omega

/-- Strings equal up to the case of Basic Latin letters have the same ASCII
lower-case form. -/
theorem SameUpToAsciiCase.lower_eq (a b : JSString) (h : SameUpToAsciiCase a b) :
    asciiToLowerCase a = asciiToLowerCase b := by
  unfold SameUpToAsciiCase at h
  unfold asciiToLowerCase
  induction h with
  | nil => rfl
  | cons hxy _ ih =>
    rw [List.map_cons, List.map_cons, ih]
    unfold SameLetter at hxy
    rw [hxy]

/-- A string equal to a Basic Latin one up to letter case is Basic Latin. -/
theorem SameUpToAsciiCase.isAscii (a b : JSString) (h : SameUpToAsciiCase a b) (hb : IsAscii b) :
    IsAscii a := by
  unfold SameUpToAsciiCase at h
  induction h with
  | nil => intro u hu; cases hu
  | cons hxy _ ih =>
    intro u hu
    rcases List.mem_cons.mp hu with hu | hu
    · rw [hu]
      exact sameLetter_lt _ _ hxy (hb _ (List.mem_cons_self _ _))
    · exact ih (fun v hv => hb v (List.mem_cons_of_mem _ hv)) u hu

/-- The login flow begins by looking up the trimmed, lower-cased email. -/
theorem Login.handleSubmit_calls {σ : Type} (rt : Runtime) (fs : Firestore σ) (now : JSString)
    (st : Login.State) (w : World σ) :
    ∃ more, (Login.handleSubmit rt fs now st w).2.calls =
      w.calls ++ Call.getDocs (rt.toLowerCase (trim st.email)) :: more := by
  unfold Login.handleSubmit Login.tryBlock
  simp only
  rcases fs.getDocs (rt.toLowerCase (trim st.email)) w.db with ⟨r, db₁⟩
  cases r with
  | error e => exact ⟨[], rfl⟩
  | ok snap =>
    cases snap with
    | nil => exact ⟨[], rfl⟩
    | cons doc docs =>
      simp only
      by_cases hv : verifyPassword rt st.pw doc.data.passwordHash = true
      · refine ⟨[Call.verifyPassword st.pw doc.data.passwordHash], ?_⟩
        simp [hv]
      · refine ⟨[Call.verifyPassword st.pw doc.data.passwordHash], ?_⟩
        simp [hv]

/-- C9: every record the registration flow inserts has `email` equal to the
input email trimmed (casing kept) and `emailLower` equal to the lower-cased
form of that stored email; the login flow looks up the trimmed, lower-cased
form of the email it is given, so its key is the registered `emailLower`
whenever the email entered at login is the registered one up to letter case
and surrounding white space: in general (same lower-case form after trimming),
for white space added around the registered input, and for Basic Latin emails
that differ in the case of letters. -/
theorem C9_email_key {σ τ : Type} (rt : Runtime) (fs : Firestore σ) (fs' : Firestore τ)
    (draw : List Nat) (now : JSString) (st : Register.State) (w : World σ)
    (lst : Login.State) (w' : World τ) (made : List Call)
    (hmade : (Register.handleSubmit rt fs draw st w).2.calls = w.calls ++ made)
    (user : UserData) (hu : Call.addDoc user ∈ made) :
    user.email = trim st.email ∧
    user.emailLower = rt.toLowerCase user.email ∧
    (∃ more, (Login.handleSubmit rt fs' now lst w').2.calls =
      w'.calls ++ Call.getDocs (rt.toLowerCase (trim lst.email)) :: more) ∧
    (SameUpToCase rt (trim lst.email) (trim st.email) →
      ∃ more, (Login.handleSubmit rt fs' now lst w').2.calls =
        w'.calls ++ Call.getDocs user.emailLower :: more) ∧
    (∀ pre post, AllSpace pre → AllSpace post → lst.email = pre ++ st.email ++ post →
      ∃ more, (Login.handleSubmit rt fs' now lst w').2.calls =
        w'.calls ++ Call.getDocs user.emailLower :: more) ∧
    (rt.LowersAscii → IsAscii user.email → SameUpToAsciiCase (trim lst.email) user.email →
      ∃ more, (Login.handleSubmit rt fs' now lst w').2.calls =
        w'.calls ++ Call.getDocs user.emailLower :: more) := by
  have hrec := Register.made_addDoc rt fs draw st w made hmade user hu
  have hemail : user.email = trim st.email := by rw [hrec]
  have hlower : user.emailLower = rt.toLowerCase (trim st.email) := by rw [hrec]
  have hcalls := Login.handleSubmit_calls rt fs' now lst w'
  have hkey : rt.toLowerCase (trim lst.email) = rt.toLowerCase (trim st.email) →
      ∃ more, (Login.handleSubmit rt fs' now lst w').2.calls =
        w'.calls ++ Call.getDocs user.emailLower :: more := by
    intro h
    rw [hlower, ← h]
    exact hcalls
  refine ⟨hemail, ?_, hcalls, hkey, ?_, ?_⟩
  · rw [hlower, hemail]
  · intro pre post hpre hpost hl
    apply hkey
    rw [hl, trim_surround pre st.email post hpre hpost]
  · intro hrt hascii hsame
    apply hkey
    rw [hemail] at hascii hsame
    rw [hrt _ (SameUpToAsciiCase.isAscii _ _ hsame hascii), hrt _ hascii]
    exact SameUpToAsciiCase.lower_eq _ _ hsame
/-- C9 at the specification's example: `A@B.com` is registered with
`emailLower = "a@b.com"`, and a login as ` a@b.COM ` looks up `a@b.com`. -/
theorem C9_email_key_witness :
    utf16 "A@B.com" = trim (Register.form "Ada Lovelace" "A@B.com" "secret1" "secret1").email ∧
    utf16 "a@b.com" = asciiRuntime.toLowerCase (utf16 "A@B.com") ∧
    ∃ more, (Login.handleSubmit asciiRuntime memoryStore (utf16 "2024-05-01T10:00:00.000Z")
        (Login.form " a@b.COM " "secret1") (freshWorld [])).2.calls =
      (freshWorld []).calls ++ Call.getDocs (utf16 "a@b.com") :: more :=
  have h := C9_email_key asciiRuntime memoryStore memoryStore [7]
    (utf16 "2024-05-01T10:00:00.000Z")
    (Register.form "Ada Lovelace" "A@B.com" "secret1" "secret1") (freshWorld [])
    (Login.form " a@b.COM " "secret1") (freshWorld [])
    [Call.getDocs (utf16 "a@b.com"), Call.hashPassword (utf16 "secret1"),
      Call.addDoc ⟨utf16 "Ada", utf16 "Lovelace", utf16 "A@B.com", utf16 "a@b.com",
        hashPassword asciiRuntime [7] (utf16 "secret1"), .serverTimestamp⟩]
    (by decide)
    ⟨utf16 "Ada", utf16 "Lovelace", utf16 "A@B.com", utf16 "a@b.com",
      hashPassword asciiRuntime [7] (utf16 "secret1"), .serverTimestamp⟩
    (by decide)
  ⟨h.1, h.2.1, h.2.2.2.2.2 (fun _ _ => rfl) (by decide)
    (by decide)⟩

/-! ## Properties of JSON text -/

/-- A hexadecimal digit written by `hexDigit` is read back by `hexVal`. -/
theorem JSON.hexVal_hexDigit (n : Nat) (h : n < 16) : JSON.hexVal (JSON.hexDigit n) = some n := by
  unfold JSON.hexVal JSON.hexDigit
  interval_cases n <;> rfl

/-- A `\uXXXX` escape is read back as the code unit it was written for. -/
theorem JSON.stringChars_unicodeEscape (u : Nat) (hu : u < 65536) (rest : JSString) :
    JSON.stringChars (JSON.unicodeEscape u ++ rest) = JSON.consUnit u (JSON.stringChars rest) := by
  have h3 := JSON.hexVal_hexDigit (u / 4096 % 16) (Nat.mod_lt _ (by decide))
  have h2 := JSON.hexVal_hexDigit (u / 256 % 16) (Nat.mod_lt _ (by decide))
  have h1 := JSON.hexVal_hexDigit (u / 16 % 16) (Nat.mod_lt _ (by decide))
  have h0 := JSON.hexVal_hexDigit (u % 16) (Nat.mod_lt _ (by decide))
  have hval : ((u / 4096 % 16 * 16 + u / 256 % 16) * 16 + u / 16 % 16) * 16 + u % 16 = u := by
    omega
  unfold JSON.unicodeEscape
  simp only [List.cons_append, List.nil_append]
  rw [JSON.stringChars]
  simp only [JSON.hex4, h3, h2, h1, h0, hval]
  simp

/-- What `QuoteJSONString` writes for one code unit is read back as that code
unit. -/
theorem JSON.stringChars_quoteUnit (u : Nat) (rest : JSString) :
    JSON.stringChars (JSON.quoteUnit u ++ rest) = JSON.consUnit u (JSON.stringChars rest) := by
  unfold JSON.quoteUnit
  split_ifs with h8 h9 h10 h12 h13 h34 h92 hesc
  · subst h8
    conv_lhs => rw [List.cons_append, JSON.stringChars.eq_def]
    simp [JSON.simpleEscape]
  · subst h9
    conv_lhs => rw [List.cons_append, JSON.stringChars.eq_def]
    simp [JSON.simpleEscape]
  · subst h10
    conv_lhs => rw [List.cons_append, JSON.stringChars.eq_def]
    simp [JSON.simpleEscape]
  · subst h12
    conv_lhs => rw [List.cons_append, JSON.stringChars.eq_def]
    simp [JSON.simpleEscape]
  · subst h13
    conv_lhs => rw [List.cons_append, JSON.stringChars.eq_def]
    simp [JSON.simpleEscape]
  · subst h34
    conv_lhs => rw [List.cons_append, JSON.stringChars.eq_def]
    simp [JSON.simpleEscape]
  · subst h92
    conv_lhs => rw [List.cons_append, JSON.stringChars.eq_def]
    simp [JSON.simpleEscape]
  · exact JSON.stringChars_unicodeEscape u (by omega) rest
  · have hlt : ¬ u < 32 := fun h => hesc (Or.inl h)
    conv_lhs => rw [List.singleton_append, JSON.stringChars.eq_def]
    simp [h34, h92, hlt]

/-- A code unit that needs no escape is read as itself. -/
theorem JSON.stringChars_plain (u : Nat) (rest : JSString) (h32 : 32 ≤ u) (h34 : u ≠ 34)
    (h92 : u ≠ 92) :
    JSON.stringChars (u :: rest) = JSON.consUnit u (JSON.stringChars rest) := by
  have hlt : ¬ u < 32 := by omega
  conv_lhs => rw [JSON.stringChars.eq_def]
  simp [h34, h92, hlt]

/-- The text `QuoteJSONString` writes for a string is read back, up to the
closing quote, as that string. -/
theorem JSON.stringChars_quoteChars (rest : JSString) :
    ∀ (n : Nat) (s : JSString), s.length ≤ n →
      JSON.stringChars (JSON.quoteChars s ++ 34 :: rest) = some (s, rest) := by
  have hclose : JSON.stringChars (34 :: rest) = some ([], rest) := by
    rw [JSON.stringChars.eq_def]
    simp
  intro n
  induction n with
  | zero =>
    intro s hs
    have : s = [] := List.eq_nil_of_length_eq_zero (Nat.le_zero.mp hs)
    subst this
    exact hclose
  | succ n ih =>
    intro s hs
    match s, hs with
    | [], _ => exact hclose
    | [u], _ =>
      rw [JSON.quoteChars, JSON.stringChars_quoteUnit, hclose]
      rfl
    | u :: l :: t, hs =>
      have hlen : (l :: t).length ≤ n := by simpa using hs
      have hlen' : t.length ≤ n := by
        simp only [List.length_cons] at hlen
        omega
      rw [JSON.quoteChars]
      by_cases hpair : (55296 ≤ u ∧ u ≤ 56319) ∧ (56320 ≤ l ∧ l ≤ 57343)
      · rw [if_pos hpair, List.cons_append, List.cons_append,
          JSON.stringChars_plain u _ (by omega) (by omega) (by omega),
          JSON.stringChars_plain l _ (by omega) (by omega) (by omega), ih t hlen']
        rfl
      · rw [if_neg hpair, List.append_assoc, JSON.stringChars_quoteUnit, ih (l :: t) hlen]
        rfl

/-- A quoted string at the head of a text is read as a string value. -/
theorem JSON.value_quote (fuel : Nat) (s rest : JSString) :
    JSON.value (fuel + 1) (JSON.quote s ++ rest) = some (.string s, rest) := by
  unfold JSON.quote
  simp only [List.cons_append, List.nil_append, List.append_assoc, JSON.value]
  simp only [show ¬ (34 = 123) by decide, show ¬ (34 = 91) by decide, if_false, if_true]
  rw [JSON.stringChars_quoteChars rest s.length s (Nat.le_refl _)]

/-- White space is skipped only where there is some. -/
theorem JSON.skipWs_cons (u : Nat) (t : JSString) (h : JSON.isWs u = false) :
    JSON.skipWs (u :: t) = u :: t := by
  unfold JSON.skipWs
  rw [List.dropWhile_cons_of_neg (by simp [h])]

/-- A quoted string is not skipped as white space. -/
theorem JSON.skipWs_quote (s rest : JSString) :
    JSON.skipWs (JSON.quote s ++ rest) = JSON.quote s ++ rest := by
  unfold JSON.quote
  simp only [List.cons_append, List.nil_append, List.append_assoc]
  exact JSON.skipWs_cons 34 _ (by decide)

/-- One member `"key":"value"` at the head of the text of an object, and what
the members parser does after it. -/
theorem JSON.members_step (value : JSString → Option (JSValue × JSString))
    (hv : ∀ s r, value (JSON.quote s ++ r) = some (.string s, r))
    (n : Nat) (k v tail : JSString) :
    JSON.members value (n + 1) (JSON.quote k ++ [58] ++ JSON.quote v ++ tail) =
      match JSON.skipWs tail with
      | [] => none
      | u :: t =>
        if u = 44 then
          match JSON.members value n (JSON.skipWs t) with
          | some (kvs, r) => some ((k, .string v) :: kvs, r)
          | none => none
        else if u = 125 then some ([(k, .string v)], t)
        else none := by
  have hshape : JSON.quote k ++ [58] ++ JSON.quote v ++ tail =
      34 :: (JSON.quoteChars k ++ 34 :: (58 :: (JSON.quote v ++ tail))) := by
    unfold JSON.quote
    simp
  rw [hshape, JSON.members]
  simp only [if_true]
  rw [JSON.stringChars_quoteChars _ k.length k (Nat.le_refl _)]
  simp only
  rw [JSON.skipWs_cons 58 _ (by decide)]
  simp only [if_true]
  rw [JSON.skipWs_quote, hv]

/-- The text of a list of properties with a separator in front of each
further one. -/
theorem join_cons_cons (sep a b : JSString) (l : List JSString) :
    join sep (a :: b :: l) = a ++ sep ++ join sep (b :: l) := by
  simp [join, List.intercalate, List.intersperse]

/-- The text of a single property. -/
theorem join_singleton (sep a : JSString) : join sep [a] = a := by
  simp [join, List.intercalate, List.intersperse]

/-- The text of a non-empty list of properties begins with the quoted name of
the first one. -/
theorem JSON.stringifyProps_head (p : String × JSString) (ps : List (String × JSString)) :
    ∃ tl, join [44] (JSON.stringifyProps (p :: ps)) = JSON.quote (utf16 p.1) ++ tl := by
  obtain ⟨k, v⟩ := p
  cases ps with
  | nil =>
    refine ⟨[58] ++ JSON.quote v, ?_⟩
    rw [JSON.stringifyProps, JSON.stringifyProps, join_singleton, List.append_assoc]
  | cons q qs =>
    obtain ⟨k', v'⟩ := q
    refine ⟨[58] ++ JSON.quote v ++ [44] ++ join [44] (JSON.stringifyProps ((k', v') :: qs)), ?_⟩
    rw [JSON.stringifyProps, JSON.stringifyProps, join_cons_cons, ← JSON.stringifyProps]
    simp

/-- The members parser reads the text of the properties of a record, up to the
closing brace, as those properties. -/
theorem JSON.members_stringifyProps (value : JSString → Option (JSValue × JSString))
    (hv : ∀ s r, value (JSON.quote s ++ r) = some (.string s, r)) (rest : JSString) :
    ∀ (ps : List (String × JSString)) (p : String × JSString) (n : Nat), ps.length < n →
      JSON.members value n (join [44] (JSON.stringifyProps (p :: ps)) ++ 125 :: rest) =
        some ((p :: ps).map (fun kv => (utf16 kv.1, JSValue.string kv.2)), rest) := by
  intro ps
  induction ps with
  | nil =>
    intro p n hn
    obtain ⟨m, rfl⟩ : ∃ m, n = m + 1 := ⟨n - 1, by omega⟩
    obtain ⟨k, v⟩ := p
    rw [JSON.stringifyProps, JSON.stringifyProps, join_singleton,
      JSON.members_step value hv m (utf16 k) v (125 :: rest),
      JSON.skipWs_cons 125 _ (by decide)]
    simp
  | cons q qs ih =>
    intro p n hn
    obtain ⟨m, rfl⟩ : ∃ m, n = m + 1 := ⟨n - 1, by omega⟩
    have hm : qs.length < m := by
      simp only [List.length_cons] at hn
      omega
    obtain ⟨k, v⟩ := p
    have htext : join [44] (JSON.stringifyProps ((k, v) :: q :: qs)) ++ 125 :: rest =
        JSON.quote (utf16 k) ++ [58] ++ JSON.quote v ++
          (44 :: (join [44] (JSON.stringifyProps (q :: qs)) ++ 125 :: rest)) := by
      obtain ⟨k', v'⟩ := q
      rw [JSON.stringifyProps, JSON.stringifyProps, join_cons_cons, ← JSON.stringifyProps]
      simp
    have hskip : JSON.skipWs (join [44] (JSON.stringifyProps (q :: qs)) ++ 125 :: rest) =
        join [44] (JSON.stringifyProps (q :: qs)) ++ 125 :: rest := by
      obtain ⟨tl, htl⟩ := JSON.stringifyProps_head q qs
      rw [htl, List.append_assoc, JSON.skipWs_quote]
    rw [htext, JSON.members_step value hv m (utf16 k) v, JSON.skipWs_cons 44 _ (by decide)]
    simp only [if_true]
    rw [hskip, ih q m hm]
    rfl

/-- The text of a list of properties is at least as long as the list. -/
theorem JSON.length_stringifyProps (ps : List (String × JSString)) :
    ps.length ≤ (join [44] (JSON.stringifyProps ps)).length := by
  induction ps with
  | nil => exact Nat.zero_le _
  | cons p ps ih =>
    obtain ⟨k, v⟩ := p
    cases ps with
    | nil =>
      rw [JSON.stringifyProps, JSON.stringifyProps, join_singleton]
      simp [JSON.quote]
    | cons q qs =>
      obtain ⟨k', v'⟩ := q
      rw [JSON.stringifyProps, JSON.stringifyProps, join_cons_cons, ← JSON.stringifyProps]
      simp only [List.length_append, List.length_cons] at ih ⊢
      omega

/-- The text `JSON.stringify` writes for a record of strings is parsed back by
`JSON.parse` as the object with those properties. -/
theorem JSON.parse_stringifyRecord (props : List (String × JSString)) :
    JSON.parse (JSON.stringifyRecord props) = .ok (recordValue props) := by
  have htext : JSON.stringifyRecord props = 123 :: (join [44] (JSON.stringifyProps props) ++ [125]) := by
    simp [JSON.stringifyRecord]
  unfold JSON.parse
  rw [htext, JSON.skipWs_cons 123 _ (by decide)]
  cases props with
  | nil =>
    have : join [44] (JSON.stringifyProps []) ++ [125] = [125] := by
      simp [JSON.stringifyProps, join, List.intercalate]
    rw [this]
    rfl
  | cons p ps =>
    obtain ⟨tl, htl⟩ := JSON.stringifyProps_head p ps
    have hhead : join [44] (JSON.stringifyProps (p :: ps)) ++ [125] =
        34 :: (JSON.quoteChars (utf16 p.1) ++ [34] ++ tl ++ [125]) := by
      rw [htl]
      simp [JSON.quote]
    have hlen := JSON.length_stringifyProps (p :: ps)
    have hmem := JSON.members_stringifyProps
      (JSON.value (123 :: (join [44] (JSON.stringifyProps (p :: ps)) ++ [125])).length)
      (fun s r => JSON.value_quote _ s r) [] ps p
      (123 :: (join [44] (JSON.stringifyProps (p :: ps)) ++ [125])).length
      (by
        simp only [List.length_cons, List.length_append] at hlen ⊢
        omega)
    rw [JSON.value]
    simp only [if_true]
    rw [hhead, JSON.skipWs_cons 34 _ (by decide)]
    simp only [show ¬ (34 = 125) by decide, if_false]
    rw [← hhead, hmem]
    rfl

/-! ## Properties of the saved session -/

/-- The `try` block of the login when the user is found and the password
verifies: the session is written and `/home` is navigated to. -/
theorem Login.tryBlock_verified {σ : Type} (rt : Runtime) (fs : Firestore σ)
    (now : JSString) (st : Login.State) (w : World σ) (doc : QueryDocumentSnapshot)
    (docs : List QueryDocumentSnapshot) (db₁ : σ)
    (hg : fs.getDocs (rt.toLowerCase (trim st.email)) w.db = (.ok (doc :: docs), db₁))
    (hv : verifyPassword rt st.pw doc.data.passwordHash = true) :
    Login.tryBlock rt fs now st w =
      (.ok (),
       { db := db₁,
         localStorage := w.localStorage.setItem "user_data"
           (JSON.stringifyRecord [("userId", doc.id), ("email", doc.data.email),
             ("firstName", doc.data.firstName), ("signedInAt", now)]),
         calls := w.calls ++ [Call.getDocs (rt.toLowerCase (trim st.email)),
           Call.verifyPassword st.pw doc.data.passwordHash],
         navigations := w.navigations ++ [⟨"/home", false, 0⟩] }) := by
  simp [Login.tryBlock, hg, hv]

/-- What the login handler leaves when the `try` block completes. -/
theorem Login.handleSubmit_completed {σ : Type} (rt : Runtime) (fs : Firestore σ)
    (now : JSString) (st : Login.State) (w w₁ : World σ)
    (h : Login.tryBlock rt fs now st w = (.ok (), w₁)) :
    Login.handleSubmit rt fs now st w = ({ st with err := "", loading := false }, w₁) := by
  simp [Login.handleSubmit, h]

/-- The text written for a record is never the empty string. -/
theorem JSON.stringifyRecord_ne_nil (props : List (String × JSString)) :
    JSON.stringifyRecord props ≠ [] := by
  simp [JSON.stringifyRecord]

/-- C11: on every successful login (user found, password verified) the flow
writes to the `user_data` slot, whatever it held before, the text of the record
with `userId = user.id`, `email = user.email`, `firstName = user.firstName` and
`signedInAt` the sign-in time, leaves the other slots alone, reports no error
and navigates to `/home`; reading the Session Store right afterwards as `Home`
does returns exactly that record, and `Home` renders the page with it. -/
theorem C11_session_saved_and_read_back {σ : Type} (rt : Runtime) (fs : Firestore σ)
    (now : JSString) (st : Login.State) (w : World σ) (doc : QueryDocumentSnapshot)
    (docs : List QueryDocumentSnapshot) (db₁ : σ)
    (hfound : fs.getDocs (rt.toLowerCase (trim st.email)) w.db = (.ok (doc :: docs), db₁))
    (hverified : verifyPassword rt st.pw doc.data.passwordHash = true) :
    (Login.handleSubmit rt fs now st w).2.localStorage.getItem "user_data" =
      some (JSON.stringifyRecord [("userId", doc.id), ("email", doc.data.email),
        ("firstName", doc.data.firstName), ("signedInAt", now)]) ∧
    (∀ key, key ≠ "user_data" →
      (Login.handleSubmit rt fs now st w).2.localStorage.getItem key =
        w.localStorage.getItem key) ∧
    Home.readSession (Login.handleSubmit rt fs now st w).2.localStorage =
      .ok (sessionRecord doc.id doc.data.email doc.data.firstName now) ∧
    Home (Login.handleSubmit rt fs now st w).2 =
      .ok (.page (sessionRecord doc.id doc.data.email doc.data.firstName now),
        (Login.handleSubmit rt fs now st w).2) ∧
    (Login.handleSubmit rt fs now st w).1.err = "" ∧
    (Login.handleSubmit rt fs now st w).2.navigations =
      w.navigations ++ [⟨"/home", false, 0⟩] := by
  rw [Login.handleSubmit_completed rt fs now st w _
    (Login.tryBlock_verified rt fs now st w doc docs db₁ hfound hverified)]
  have hslot : (w.localStorage.setItem "user_data"
      (JSON.stringifyRecord [("userId", doc.id), ("email", doc.data.email),
        ("firstName", doc.data.firstName), ("signedInAt", now)])).getItem "user_data" =
      some (JSON.stringifyRecord [("userId", doc.id), ("email", doc.data.email),
        ("firstName", doc.data.firstName), ("signedInAt", now)]) := by
    simp [Storage.getItem, Storage.setItem]
  have hread : Home.readSession (w.localStorage.setItem "user_data"
      (JSON.stringifyRecord [("userId", doc.id), ("email", doc.data.email),
        ("firstName", doc.data.firstName), ("signedInAt", now)])) =
      .ok (sessionRecord doc.id doc.data.email doc.data.firstName now) := by
    rw [Home.readSession_content _ _ hslot (JSON.stringifyRecord_ne_nil _),
      JSON.parse_stringifyRecord]
    rfl
  refine ⟨hslot, ?_, hread, ?_, rfl, rfl⟩
  · intro key hkey
    simp [Storage.getItem, Storage.setItem, hkey]
  · simp only [Home, hread]
    rfl

/-- C11 at the specification's scenario: with Ada registered, a login as
`Ada@X.com` with `secret1` saves a session that reads back with
`firstName = "Ada"`. -/
theorem C11_session_saved_and_read_back_witness :
    Home.readSession (Login.handleSubmit asciiRuntime memoryStore
        (utf16 "2024-05-01T10:00:00.000Z") (Login.form "Ada@X.com" "secret1")
        (freshWorld [⟨[105], ⟨utf16 "Ada", utf16 "Lovelace", utf16 "Ada@X.com",
          utf16 "ada@x.com", hashPassword asciiRuntime [1] (utf16 "secret1"),
          .time 0⟩⟩])).2.localStorage =
      .ok (sessionRecord [105] (utf16 "Ada@X.com") (utf16 "Ada")
        (utf16 "2024-05-01T10:00:00.000Z")) :=
  (C11_session_saved_and_read_back asciiRuntime memoryStore
    (utf16 "2024-05-01T10:00:00.000Z") (Login.form "Ada@X.com" "secret1")
    (freshWorld [⟨[105], ⟨utf16 "Ada", utf16 "Lovelace", utf16 "Ada@X.com",
      utf16 "ada@x.com", hashPassword asciiRuntime [1] (utf16 "secret1"), .time 0⟩⟩])
    ⟨[105], ⟨utf16 "Ada", utf16 "Lovelace", utf16 "Ada@X.com",
      utf16 "ada@x.com", hashPassword asciiRuntime [1] (utf16 "secret1"), .time 0⟩⟩
    []
    [⟨[105], ⟨utf16 "Ada", utf16 "Lovelace", utf16 "Ada@X.com",
      utf16 "ada@x.com", hashPassword asciiRuntime [1] (utf16 "secret1"), .time 0⟩⟩]
    rfl (by decide)).2.2.1

/-! ## Properties of the gate -/

/-- With nothing in the `user_data` slot, `Home` redirects to `/login` and
returns `null`. -/
theorem Home.of_missing {σ : Type} (w : World σ) (h : w.localStorage.getItem "user_data" = none) :
    Home w = .ok (.nothing, { w with navigations := w.navigations ++ [⟨"/login", true, 0⟩] }) := by
  unfold Home
  rw [Home.readSession_missing _ h]
  rfl

/-- The logout action empties the `user_data` slot, whatever it held. -/
theorem Home.logout_slot {σ : Type} (w : World σ) :
    (Home.logout w).localStorage.getItem "user_data" = none := by
  simp [Home.logout, Storage.getItem, Storage.removeItem]

/-- C12: whatever the state of client storage, when no session is stored (the
`user_data` slot is missing) the gate `Home` signals a redirect to `/login` and
renders nothing; and the logout action removes the `user_data` slot whatever it
held (and navigates to `/login`), so that a gate check after it finds no
session, signals the redirect again and renders nothing. -/
theorem C12_gate_redirects_without_session {σ : Type} (w : World σ) :
    (w.localStorage.getItem "user_data" = none →
      Home w =
        .ok (.nothing, { w with navigations := w.navigations ++ [⟨"/login", true, 0⟩] })) ∧
    (Home.logout w).localStorage.getItem "user_data" = none ∧
    (∀ key, key ≠ "user_data" →
      (Home.logout w).localStorage.getItem key = w.localStorage.getItem key) ∧
    (Home.logout w).navigations = w.navigations ++ [⟨"/login", false, 0⟩] ∧
    Home.readSession (Home.logout w).localStorage = .ok .null ∧
    Home (Home.logout w) =
      .ok (.nothing, { Home.logout w with
        navigations := (Home.logout w).navigations ++ [⟨"/login", true, 0⟩] }) := by
  refine ⟨Home.of_missing w, Home.logout_slot w, ?_, rfl,
    Home.readSession_missing _ (Home.logout_slot w), Home.of_missing _ (Home.logout_slot w)⟩
  intro key hkey
  simp [Home.logout, Storage.getItem, Storage.removeItem, hkey]

/-- C12 at concrete clients: a fresh client is redirected to `/login` with
nothing rendered; a client holding a session is redirected after logout. -/
theorem C12_gate_redirects_without_session_witness :
    Home (freshWorld []) =
      .ok (.nothing, { freshWorld [] with
        navigations := (freshWorld []).navigations ++ [⟨"/login", true, 0⟩] }) ∧
    Home (Home.logout (worldWithSlot (JSON.stringifyRecord [("userId", [105]),
        ("email", utf16 "Ada@X.com"), ("firstName", utf16 "Ada"),
        ("signedInAt", utf16 "2024-05-01T10:00:00.000Z")]))) =
      .ok (.nothing, { Home.logout (worldWithSlot (JSON.stringifyRecord [("userId", [105]),
          ("email", utf16 "Ada@X.com"), ("firstName", utf16 "Ada"),
          ("signedInAt", utf16 "2024-05-01T10:00:00.000Z")])) with
        navigations := (Home.logout (worldWithSlot (JSON.stringifyRecord [("userId", [105]),
          ("email", utf16 "Ada@X.com"), ("firstName", utf16 "Ada"),
          ("signedInAt", utf16 "2024-05-01T10:00:00.000Z")]))).navigations ++
            [⟨"/login", true, 0⟩] }) :=
  ⟨(C12_gate_redirects_without_session (freshWorld [])).1 rfl,
   (C12_gate_redirects_without_session (worldWithSlot (JSON.stringifyRecord [("userId", [105]),
      ("email", utf16 "Ada@X.com"), ("firstName", utf16 "Ada"),
      ("signedInAt", utf16 "2024-05-01T10:00:00.000Z")]))).2.2.2.2.2⟩

end AuthCore
